import Mathlib

/-!
Shallow embedding of the ray-tracer core (styxx3542/ray_tracer) in Lean 4.

Modelling conventions:
- `f64` is modelled as `ℝ` wherever the data flows through `sqrt`, trig or
  division by irrational quantities, and as `ℚ` for the refractive-index
  stack (whose arithmetic is exact in the source dataflow).  IEEE NaN and
  infinities are outside the real model except where a claim depends on
  them (the cube slab test uses `EReal`, and the intersection ordering has
  a dedicated model with an explicit NaN value further below).
- Rust panics (`unwrap`, `expect`, out-of-bounds indexing) are modelled by
  `Option`, a `none` result standing for the panic.
- `Matrix::inverse` returns `Option` in Rust and every caller unwraps it;
  here `Matrix.inverse` is the total cofactor formula, division by a zero
  determinant yielding Lean's `x / 0 = 0` junk entries; every theorem that
  touches an inverse assumes `det ≠ 0`.
- The source file `src/float/epsilon.rs` is not in the snapshot; `EPSILON`
  and `LOW_EPSILON` are modelled from the spec (tight ~1e-5, loose ~1e-4).
-/

namespace RT

noncomputable section

open scoped Classical

/-- Modelled from the spec: the tight epsilon from the missing
`src/float/epsilon.rs` ("a tight epsilon (~1e-5) for ray-math guards"). -/
def EPSILON : ℝ := 1 / 100000

/-- Modelled from the spec: the loose epsilon from the missing
`src/float/epsilon.rs` ("a loose epsilon (~1e-4) for user-visible equality"). -/
def LOW_EPSILON : ℝ := 1 / 10000

/-- Modelled from the spec: `EPSILON` at type `ℚ`, used for the exact
refractive-index dataflow (`f64::approx_eq` on indices). -/
def EPSILONQ : ℚ := 1 / 100000

/-- Embeds `f64::approx_eq` (`|a - b| <= EPSILON`, the `approx` crate's
`abs_diff_eq`) on the real model. -/
def approxEq (a b : ℝ) : Prop := |a - b| ≤ EPSILON

/-- Embeds `f64::approx_eq` (`|a - b| <= EPSILON`) on the rational model
of refractive indices.  The comparison is stated on cross-multiplied
integers so the kernel can evaluate it on concrete inputs; the theorem
`approxEqQ_iff` below proves it equal to the spec form
`|a - b| ≤ EPSILONQ`. -/
def approxEqQ (a b : ℚ) : Bool :=
  decide ((a.num * b.den - b.num * a.den).natAbs * 100000 ≤ a.den * b.den)

/-- Embeds `primitives::vector::Vector` (fields x, y, z of `f64`). -/
@[ext] structure Vector where
  x : ℝ
  y : ℝ
  z : ℝ

/-- Embeds `primitives::point::Point` (fields x, y, z of `f64`). -/
@[ext] structure Point where
  x : ℝ
  y : ℝ
  z : ℝ

namespace Vector

/-- Embeds `Vector::magnitude`: `sqrt (x^2 + y^2 + z^2)`. -/
def magnitude (v : Vector) : ℝ := Real.sqrt (v.x ^ 2 + v.y ^ 2 + v.z ^ 2)

/-- Embeds `Vector::normalize`: componentwise division by the magnitude.
For the zero vector the source divides 0.0 by 0.0 giving NaN; the real
model gives `0 / 0 = 0` — under either reading the result is not a unit
vector. -/
def normalize (v : Vector) : Vector :=
  ⟨v.x / v.magnitude, v.y / v.magnitude, v.z / v.magnitude⟩

/-- Embeds `Vector::dot_product`. -/
def dot_product (v w : Vector) : ℝ := v.x * w.x + v.y * w.y + v.z * w.z

/-- Embeds `impl Add for Vector`. -/
def add (v w : Vector) : Vector := ⟨v.x + w.x, v.y + w.y, v.z + w.z⟩

/-- Embeds `impl Sub for Vector`. -/
def sub (v w : Vector) : Vector := ⟨v.x - w.x, v.y - w.y, v.z - w.z⟩

/-- Embeds `impl Neg for Vector`. -/
def neg (v : Vector) : Vector := ⟨-v.x, -v.y, -v.z⟩

/-- Embeds `impl Mul of f64 for Vector` (scalar multiple). -/
def smul (v : Vector) (s : ℝ) : Vector := ⟨v.x * s, v.y * s, v.z * s⟩

/-- Modelled from the spec: `Vector::reflect` is called from
`intersection.rs` and `material.rs` but its definition is missing from the
snapshot; the spec gives `reflect(v, n) = v − n · 2(v·n)`. -/
def reflect (v n : Vector) : Vector := v.sub (n.smul (2 * v.dot_product n))

end Vector

namespace Point

/-- Embeds `impl Add of Vector for Point`. -/
def addV (p : Point) (v : Vector) : Point := ⟨p.x + v.x, p.y + v.y, p.z + v.z⟩

/-- Embeds `impl Sub of Point for Point` (result is a vector). -/
def subP (p q : Point) : Vector := ⟨p.x - q.x, p.y - q.y, p.z - q.z⟩

/-- Embeds `impl Sub of Vector for Point`. -/
def subV (p : Point) (v : Vector) : Point := ⟨p.x - v.x, p.y - v.y, p.z - v.z⟩

/-- Embeds `Point::zero` from the `Tuple` trait impl. -/
def zero : Point := ⟨0, 0, 0⟩

end Point

/-- Embeds `primitives::color::Color` (linear RGB triple of `f64`). -/
@[ext] structure Color where
  r : ℝ
  g : ℝ
  b : ℝ

namespace Color

/-- Embeds `impl Add for Color`. -/
def add (a c : Color) : Color := ⟨a.r + c.r, a.g + c.g, a.b + c.b⟩

/-- Embeds `impl Sub for Color`. -/
def sub (a c : Color) : Color := ⟨a.r - c.r, a.g - c.g, a.b - c.b⟩

/-- Embeds `impl Mul of Color for Color` (Hadamard product). -/
def mulC (a c : Color) : Color := ⟨a.r * c.r, a.g * c.g, a.b * c.b⟩

/-- Modelled from the spec: `Color * f64` is used by `world.rs` (scaling a
color by reflectivity/transparency); the impl is missing from the snapshot;
the spec's colors are componentwise-scaled triples. -/
def smul (a : Color) (s : ℝ) : Color := ⟨a.r * s, a.g * s, a.b * s⟩

/-- Modelled from the spec: `Color::black()` is used by `world.rs` but its
definition is missing from the snapshot; the spec's "black" is (0,0,0). -/
def black : Color := ⟨0, 0, 0⟩

/-- Modelled from the spec: the `Sum` impl used by `world.rs`'s
`.iter().map(..).sum()` over per-light contributions; the spec says
"Contributions from multiple lights are summed". -/
def sum (l : List Color) : Color := l.foldr add black

end Color

/-- Embeds `primitives::matrix3::Matrix3` (row-major 3×3 grid). -/
@[ext] structure Matrix3 where
  n00 : ℝ
  n01 : ℝ
  n02 : ℝ
  n10 : ℝ
  n11 : ℝ
  n12 : ℝ
  n20 : ℝ
  n21 : ℝ
  n22 : ℝ

namespace Matrix3

/-- Embeds `Matrix3::determinant` (cofactor expansion along row 0, the
2×2 determinants coming from `Matrix2::determinant = ad − bc`). -/
def determinant (A : Matrix3) : ℝ :=
  A.n00 * (A.n11 * A.n22 - A.n12 * A.n21)
    - A.n01 * (A.n10 * A.n22 - A.n12 * A.n20)
    + A.n02 * (A.n10 * A.n21 - A.n11 * A.n20)

end Matrix3

/-- Embeds `primitives::matrix::Matrix` (row-major 4×4 grid; field `mij`
is `grid[i * 4 + j]`, i.e. row i, column j). -/
@[ext] structure Matrix where
  m00 : ℝ
  m01 : ℝ
  m02 : ℝ
  m03 : ℝ
  m10 : ℝ
  m11 : ℝ
  m12 : ℝ
  m13 : ℝ
  m20 : ℝ
  m21 : ℝ
  m22 : ℝ
  m23 : ℝ
  m30 : ℝ
  m31 : ℝ
  m32 : ℝ
  m33 : ℝ

namespace Matrix

/-- Embeds `Matrix::id`. -/
def id : Matrix := ⟨1,0,0,0, 0,1,0,0, 0,0,1,0, 0,0,0,1⟩

/-- Embeds `impl Mul of Matrix for Matrix` (row-by-column products). -/
def mul (A B : Matrix) : Matrix :=
  ⟨A.m00*B.m00 + A.m01*B.m10 + A.m02*B.m20 + A.m03*B.m30,
   A.m00*B.m01 + A.m01*B.m11 + A.m02*B.m21 + A.m03*B.m31,
   A.m00*B.m02 + A.m01*B.m12 + A.m02*B.m22 + A.m03*B.m32,
   A.m00*B.m03 + A.m01*B.m13 + A.m02*B.m23 + A.m03*B.m33,
   A.m10*B.m00 + A.m11*B.m10 + A.m12*B.m20 + A.m13*B.m30,
   A.m10*B.m01 + A.m11*B.m11 + A.m12*B.m21 + A.m13*B.m31,
   A.m10*B.m02 + A.m11*B.m12 + A.m12*B.m22 + A.m13*B.m32,
   A.m10*B.m03 + A.m11*B.m13 + A.m12*B.m23 + A.m13*B.m33,
   A.m20*B.m00 + A.m21*B.m10 + A.m22*B.m20 + A.m23*B.m30,
   A.m20*B.m01 + A.m21*B.m11 + A.m22*B.m21 + A.m23*B.m31,
   A.m20*B.m02 + A.m21*B.m12 + A.m22*B.m22 + A.m23*B.m32,
   A.m20*B.m03 + A.m21*B.m13 + A.m22*B.m23 + A.m23*B.m33,
   A.m30*B.m00 + A.m31*B.m10 + A.m32*B.m20 + A.m33*B.m30,
   A.m30*B.m01 + A.m31*B.m11 + A.m32*B.m21 + A.m33*B.m31,
   A.m30*B.m02 + A.m31*B.m12 + A.m32*B.m22 + A.m33*B.m32,
   A.m30*B.m03 + A.m31*B.m13 + A.m32*B.m23 + A.m33*B.m33⟩

/-- Embeds `Matrix::transpose`. -/
def transpose (A : Matrix) : Matrix :=
  ⟨A.m00, A.m10, A.m20, A.m30,
   A.m01, A.m11, A.m21, A.m31,
   A.m02, A.m12, A.m22, A.m32,
   A.m03, A.m13, A.m23, A.m33⟩

/-- Embeds `impl Mul of T : Tuple for Matrix` at `T = Point` (`w() = 1`):
only the first three output components exist, fed by `x, y, z, w`. -/
def mulPoint (A : Matrix) (p : Point) : Point :=
  ⟨A.m00 * p.x + A.m01 * p.y + A.m02 * p.z + A.m03 * 1,
   A.m10 * p.x + A.m11 * p.y + A.m12 * p.z + A.m13 * 1,
   A.m20 * p.x + A.m21 * p.y + A.m22 * p.z + A.m23 * 1⟩

/-- Embeds `impl Mul of T : Tuple for Matrix` at `T = Vector` (`w() = 0`). -/
def mulVector (A : Matrix) (v : Vector) : Vector :=
  ⟨A.m00 * v.x + A.m01 * v.y + A.m02 * v.z + A.m03 * 0,
   A.m10 * v.x + A.m11 * v.y + A.m12 * v.z + A.m13 * 0,
   A.m20 * v.x + A.m21 * v.y + A.m22 * v.z + A.m23 * 0⟩

/-- Embeds `Matrix::submatrix(0, 0)` followed by `Matrix3::determinant`
as used by `cofactor`; the sixteen `subdetIJ` functions below are the
sixteen `submatrix(i, j).determinant()` values, rows and columns removed
exactly as the source's skip loops do. -/
def subdet00 (A : Matrix) : ℝ :=
  Matrix3.determinant ⟨A.m11,A.m12,A.m13, A.m21,A.m22,A.m23, A.m31,A.m32,A.m33⟩

def subdet01 (A : Matrix) : ℝ :=
  Matrix3.determinant ⟨A.m10,A.m12,A.m13, A.m20,A.m22,A.m23, A.m30,A.m32,A.m33⟩

def subdet02 (A : Matrix) : ℝ :=
  Matrix3.determinant ⟨A.m10,A.m11,A.m13, A.m20,A.m21,A.m23, A.m30,A.m31,A.m33⟩

def subdet03 (A : Matrix) : ℝ :=
  Matrix3.determinant ⟨A.m10,A.m11,A.m12, A.m20,A.m21,A.m22, A.m30,A.m31,A.m32⟩

def subdet10 (A : Matrix) : ℝ :=
  Matrix3.determinant ⟨A.m01,A.m02,A.m03, A.m21,A.m22,A.m23, A.m31,A.m32,A.m33⟩

def subdet11 (A : Matrix) : ℝ :=
  Matrix3.determinant ⟨A.m00,A.m02,A.m03, A.m20,A.m22,A.m23, A.m30,A.m32,A.m33⟩

def subdet12 (A : Matrix) : ℝ :=
  Matrix3.determinant ⟨A.m00,A.m01,A.m03, A.m20,A.m21,A.m23, A.m30,A.m31,A.m33⟩

def subdet13 (A : Matrix) : ℝ :=
  Matrix3.determinant ⟨A.m00,A.m01,A.m02, A.m20,A.m21,A.m22, A.m30,A.m31,A.m32⟩

def subdet20 (A : Matrix) : ℝ :=
  Matrix3.determinant ⟨A.m01,A.m02,A.m03, A.m11,A.m12,A.m13, A.m31,A.m32,A.m33⟩

def subdet21 (A : Matrix) : ℝ :=
  Matrix3.determinant ⟨A.m00,A.m02,A.m03, A.m10,A.m12,A.m13, A.m30,A.m32,A.m33⟩

def subdet22 (A : Matrix) : ℝ :=
  Matrix3.determinant ⟨A.m00,A.m01,A.m03, A.m10,A.m11,A.m13, A.m30,A.m31,A.m33⟩

def subdet23 (A : Matrix) : ℝ :=
  Matrix3.determinant ⟨A.m00,A.m01,A.m02, A.m10,A.m11,A.m12, A.m30,A.m31,A.m32⟩

def subdet30 (A : Matrix) : ℝ :=
  Matrix3.determinant ⟨A.m01,A.m02,A.m03, A.m11,A.m12,A.m13, A.m21,A.m22,A.m23⟩

def subdet31 (A : Matrix) : ℝ :=
  Matrix3.determinant ⟨A.m00,A.m02,A.m03, A.m10,A.m12,A.m13, A.m20,A.m22,A.m23⟩

def subdet32 (A : Matrix) : ℝ :=
  Matrix3.determinant ⟨A.m00,A.m01,A.m03, A.m10,A.m11,A.m13, A.m20,A.m21,A.m23⟩

def subdet33 (A : Matrix) : ℝ :=
  Matrix3.determinant ⟨A.m00,A.m01,A.m02, A.m10,A.m11,A.m12, A.m20,A.m21,A.m22⟩

/-- Embeds `Matrix::cofactor(i, j)`: the submatrix determinant signed by
the parity of `i + j`. The sixteen values are spelled out positionally. -/
def cof00 (A : Matrix) : ℝ := A.subdet00
def cof01 (A : Matrix) : ℝ := -A.subdet01
def cof02 (A : Matrix) : ℝ := A.subdet02
def cof03 (A : Matrix) : ℝ := -A.subdet03
def cof10 (A : Matrix) : ℝ := -A.subdet10
def cof11 (A : Matrix) : ℝ := A.subdet11
def cof12 (A : Matrix) : ℝ := -A.subdet12
def cof13 (A : Matrix) : ℝ := A.subdet13
def cof20 (A : Matrix) : ℝ := A.subdet20
def cof21 (A : Matrix) : ℝ := -A.subdet21
def cof22 (A : Matrix) : ℝ := A.subdet22
def cof23 (A : Matrix) : ℝ := -A.subdet23
def cof30 (A : Matrix) : ℝ := -A.subdet30
def cof31 (A : Matrix) : ℝ := A.subdet31
def cof32 (A : Matrix) : ℝ := -A.subdet32
def cof33 (A : Matrix) : ℝ := A.subdet33

/-- Embeds `Matrix::determinant` (cofactor expansion along row 0). -/
def determinant (A : Matrix) : ℝ :=
  A.m00 * A.cof00 + A.m01 * A.cof01 + A.m02 * A.cof02 + A.m03 * A.cof03

/-- Embeds `Matrix::invertible` (`determinant != 0`). -/
def invertible (A : Matrix) : Prop := A.determinant ≠ 0

/-- Embeds `Matrix::inverse`: `result[(j, i)] = cofactor(i, j) / det`, so
the entry at row j, column i is `cof(i, j) / det`.  In Rust this returns
`None` for a singular matrix and every call site unwraps; here the formula
is total, a zero determinant giving `x / 0 = 0` junk entries — every
theorem about inverses assumes `determinant ≠ 0`. -/
def inverse (A : Matrix) : Matrix :=
  let d := A.determinant
  ⟨A.cof00 / d, A.cof10 / d, A.cof20 / d, A.cof30 / d,
   A.cof01 / d, A.cof11 / d, A.cof21 / d, A.cof31 / d,
   A.cof02 / d, A.cof12 / d, A.cof22 / d, A.cof32 / d,
   A.cof03 / d, A.cof13 / d, A.cof23 / d, A.cof33 / d⟩

/-- Embeds `Matrix::translate`: the translation matrix pre-multiplies the
receiver (`result * *self`). -/
def translate (m : Matrix) (x y z : ℝ) : Matrix :=
  Matrix.mul ⟨1,0,0,x, 0,1,0,y, 0,0,1,z, 0,0,0,1⟩ m

/-- Embeds `Matrix::scale`: the scaling matrix pre-multiplies the receiver. -/
def scale (m : Matrix) (x y z : ℝ) : Matrix :=
  Matrix.mul ⟨x,0,0,0, 0,y,0,0, 0,0,z,0, 0,0,0,1⟩ m

/-- Embeds `Matrix::rotate_x`: the x-rotation matrix pre-multiplies the
receiver. -/
def rotate_x (m : Matrix) (r : ℝ) : Matrix :=
  Matrix.mul ⟨1,0,0,0,
              0,Real.cos r,-Real.sin r,0,
              0,Real.sin r,Real.cos r,0,
              0,0,0,1⟩ m

/-- Embeds `Matrix::rotate_y`: the y-rotation matrix pre-multiplies the
receiver. -/
def rotate_y (m : Matrix) (r : ℝ) : Matrix :=
  Matrix.mul ⟨Real.cos r,0,Real.sin r,0,
              0,1,0,0,
              -Real.sin r,0,Real.cos r,0,
              0,0,0,1⟩ m

/-- Embeds `Matrix::rotate_z`.  Unlike the five sibling builder operations
the source returns the bare rotation matrix (`result`, not
`result * *self`), discarding the accumulated receiver. -/
def rotate_z (_m : Matrix) (r : ℝ) : Matrix :=
  ⟨Real.cos r,-Real.sin r,0,0,
   Real.sin r,Real.cos r,0,0,
   0,0,1,0,
   0,0,0,1⟩

/-- Embeds `Matrix::shear`: the shearing matrix pre-multiplies the
receiver. -/
def shear (m : Matrix) (xy xz yx yz zx zy : ℝ) : Matrix :=
  Matrix.mul ⟨1,xy,xz,0, yx,1,yz,0, zx,zy,1,0, 0,0,0,1⟩ m

end Matrix

/-- Embeds `rtc::ray::Ray`: origin, direction and the refractive-index
stack (a `Vec<f64>`; indices stay rational through the whole dataflow, so
the stack is modelled as `List ℚ`, the end of the list being the top). -/
structure Ray where
  origin : Point
  direction : Vector
  refractive_indices : List ℚ

namespace Ray

/-- Embeds `Ray::new`: the refractive-index stack starts as `vec![]`
(empty — not `[1.0]`). -/
def new (origin : Point) (direction : Vector) : Ray := ⟨origin, direction, []⟩

/-- Embeds `Ray::position`. -/
def position (r : Ray) (time : ℝ) : Point := r.origin.addV (r.direction.smul time)

/-- Embeds `Ray::add_index` (`Vec::push`, i.e. append at the top). -/
def add_index (r : Ray) (k : ℚ) : Ray :=
  { r with refractive_indices := r.refractive_indices ++ [k] }

/-- Embeds `Ray::remove_index`: `retain(|o| *o != k)` keeps exactly the
entries that differ from `k` by exact (not approximate) equality. -/
def remove_index (r : Ray) (k : ℚ) : Ray :=
  { r with refractive_indices := r.refractive_indices.filter (fun o => o ≠ k) }

/-- Embeds `Ray::transform`: builds a new ray via `Ray::new`, so the
transformed ray's index stack is empty. -/
def transform (r : Ray) (t : Matrix) : Ray :=
  Ray.new (t.mulPoint r.origin) (t.mulVector r.direction)

/-- Modelled from the spec: `Ray::with_indices` is called by `world.rs`
(the refraction child ray "whose index stack starts at [n2]") but its
definition is missing from the snapshot; it replaces the stack wholesale. -/
def with_indices (r : Ray) (l : List ℚ) : Ray := { r with refractive_indices := l }

end Ray

/-- Embeds `rtc::pattern::PatternType` (each variant carries its colors). -/
inductive PatternType where
  | stripe (a b : Color)
  | gradient (a b : Color)
  | ring (a b : Color)
  | checkers (a b : Color)
  | test
  | radialGradient (a b : Color)

/-- Embeds `rtc::pattern::Pattern` with its cached inverse transform. -/
structure Pattern where
  pattern_type : PatternType
  transform : Matrix
  transform_inverse : Matrix

namespace Pattern

/-- Rust `f64 % m` (truncated remainder), used by the checkers pattern. -/
def frem (a m : ℝ) : ℝ := a - m * (if 0 ≤ a / m then (⌊a / m⌋ : ℝ) else (⌈a / m⌉ : ℝ))

/-- Embeds `Pattern::to_pattern_space`. -/
def to_pattern_space (p : Pattern) (object_point : Point) : Point :=
  p.transform_inverse.mulPoint object_point

/-- Embeds `Pattern::pattern_at`: move to pattern space, then sample the
variant exactly as the per-variant `PatternAt` impls do (`⌊⌋` is `floor`,
`%` on `i64` is the truncated remainder `Int.tmod`). -/
def pattern_at (p : Pattern) (object_point : Point) : Color :=
  let q := p.to_pattern_space object_point
  match p.pattern_type with
  | .stripe a b => if Int.tmod ⌊q.x⌋ 2 = 0 then a else b
  | .gradient a b => a.add ((b.sub a).smul (q.x - ⌊q.x⌋))
  | .ring a b =>
      if Int.tmod ⌊Real.sqrt (q.x ^ 2 + q.z ^ 2)⌋ 2 = 0 then a else b
  | .checkers a b =>
      if approxEq (frem ((⌊q.x⌋ : ℝ) + (⌊q.y⌋ : ℝ) + (⌊q.z⌋ : ℝ)) 2) 0 then a else b
  | .test => ⟨q.x, q.y, q.z⟩
  | .radialGradient a b =>
      a.add ((b.sub a).smul (Real.sqrt (q.x ^ 2 + q.z ^ 2) - ⌊q.y⌋))

/-- Embeds `Default for Pattern` (test pattern, identity transforms). -/
def default : Pattern := ⟨.test, Matrix.id, Matrix.id⟩

end Pattern

/-- Embeds `rtc::light::PointLight`. -/
structure PointLight where
  intensity : Color
  position : Point

/-- Embeds `rtc::material::Material`.  `refractive_index` is kept at `ℚ`
(its dataflow — material field, ray stack, n1/n2 — is exact). -/
structure Material where
  pattern : Option Pattern
  color : Color
  ambient : ℝ
  diffuse : ℝ
  specular : ℝ
  shininess : ℝ
  reflective : ℝ
  transparency : ℝ
  refractive_index : ℚ
  does_cast_shadow : Bool

namespace Material

/-- Embeds `Default for Material` (and `Material::new`). -/
def new : Material :=
  { pattern := none, color := ⟨1, 1, 1⟩, ambient := 1/10, diffuse := 9/10,
    specular := 9/10, shininess := 200, reflective := 0, transparency := 0,
    refractive_index := 1, does_cast_shadow := true }

def with_transparency (m : Material) (transparency : ℝ) : Material :=
  { m with transparency := transparency }

def with_refractive_index (m : Material) (refractive_index : ℚ) : Material :=
  { m with refractive_index := refractive_index }

def with_ambient (m : Material) (ambient : ℝ) : Material := { m with ambient := ambient }

def with_diffuse (m : Material) (diffuse : ℝ) : Material := { m with diffuse := diffuse }

def with_specular (m : Material) (specular : ℝ) : Material := { m with specular := specular }

def with_color (m : Material) (color : Color) : Material := { m with color := color }

def with_pattern (m : Material) (pattern : Pattern) : Material :=
  { m with pattern := some pattern }

def with_reflective (m : Material) (reflective : ℝ) : Material :=
  { m with reflective := reflective }

/-- Embeds `Material::lighting` (the Phong evaluator), matching the
source line by line; `powf` is the real power `Real.rpow`. -/
def lighting (m : Material) (light : PointLight) (object_point world_point : Point)
    (eyev normalv : Vector) (in_shadow : Bool) : Color :=
  let color := match m.pattern with
    | some pattern => pattern.pattern_at object_point
    | none => m.color
  let effective_color := color.mulC light.intensity
  let lightv := (light.position.subP world_point).normalize
  let ambient := effective_color.smul m.ambient
  let light_dot_normal := lightv.dot_product normalv
  let ds : Color × Color :=
    if light_dot_normal < 0 ∨ (in_shadow ∧ m.does_cast_shadow) then
      (⟨0, 0, 0⟩, ⟨0, 0, 0⟩)
    else
      let diffuse := (effective_color.smul m.diffuse).smul light_dot_normal
      let reflectv := lightv.neg.reflect normalv
      let reflect_dot_eye := reflectv.dot_product eyev
      let specular :=
        if reflect_dot_eye ≤ 0 then (⟨0, 0, 0⟩ : Color)
        else (light.intensity.smul m.specular).smul (reflect_dot_eye ^ m.shininess)
      (diffuse, specular)
  (ambient.add ds.1).add ds.2

end Material

/-- Embeds `rtc::shape::Shape` (the tagged variant). -/
inductive Shape where
  | sphere
  | plane
  | cube
  | cylinder (minimum maximum : ℝ) (closed : Bool)
  | cone (minimum maximum : ℝ) (closed : Bool)

/-- Embeds `rtc::object::Object` with its cached inverse and
inverse-transpose. -/
structure Object where
  shape : Shape
  transform : Matrix
  transform_inverse : Matrix
  transform_inverse_transpose : Matrix
  material : Material

/-- Embeds `rtc::intersection::Intersection`: a t-value and the (borrowed)
object. -/
structure Intersection where
  t : ℝ
  object : Object

namespace Object

/-- Embeds `Default for Object` (unit sphere, identity transforms,
default material). -/
def dflt : Object :=
  ⟨Shape.sphere, Matrix.id, Matrix.id, Matrix.id, Material.new⟩

def new_sphere : Object := { dflt with shape := Shape.sphere }

def new_cylinder (minimum maximum : ℝ) : Object :=
  { dflt with shape := Shape.cylinder minimum maximum false }

def new_closed_cylinder (minimum maximum : ℝ) : Object :=
  { dflt with shape := Shape.cylinder minimum maximum true }

/-- Embeds `Object::new_closed_cone`, which constructs a
`Shape::Cylinder(minimum, maximum, true)` — a closed cylinder, not a cone. -/
def new_closed_cone (minimum maximum : ℝ) : Object :=
  { dflt with shape := Shape.cylinder minimum maximum true }

def new_cone (minimum maximum : ℝ) : Object :=
  { dflt with shape := Shape.cone minimum maximum false }

def new_plane : Object := { dflt with shape := Shape.plane }

def new_cube : Object := { dflt with shape := Shape.cube }

/-- Embeds `Object::set_material`. -/
def set_material (o : Object) (m : Material) : Object := { o with material := m }

/-- Embeds `Object::new_glass_sphere`. -/
def new_glass_sphere : Object :=
  set_material { dflt with shape := Shape.sphere }
    ((Material.new.with_transparency 1).with_refractive_index (mkRat 3 2))

/-- Embeds `Object::set_transform`: caches the inverse and its transpose.
The Rust code unwraps `inverse()` (panicking on a singular matrix); the
model uses the total cofactor formula, so theorems assume `det ≠ 0`. -/
def set_transform (o : Object) (t : Matrix) : Object :=
  { o with transform := t, transform_inverse := t.inverse,
           transform_inverse_transpose := t.inverse.transpose }

/-- Embeds `Object::to_object_space`. -/
def to_object_space (o : Object) (world_point : Point) : Point :=
  o.transform_inverse.mulPoint world_point

end Object

namespace Sphere

/-- Embeds `Sphere::intersect` (the dispatcher calls it `intersects`):
the geometric method with `tc`, `l`, `d2`, dividing by the direction's
magnitude at the end; misses when `d2 > 1`. -/
def intersects (ray : Ray) (object : Object) : List Intersection :=
  let sphere_to_ray := Point.zero.subP ray.origin
  let tc := sphere_to_ray.dot_product ray.direction.normalize
  let l := sphere_to_ray.dot_product sphere_to_ray
  let d2 := l - tc * tc
  if d2 > 1 then []
  else
    let del_t := Real.sqrt (1 - d2) / ray.direction.magnitude
    let tc2 := tc / ray.direction.magnitude
    [⟨tc2 - del_t, object⟩, ⟨tc2 + del_t, object⟩]

/-- Embeds `Sphere::normal_at`: `point - Point::zero()`. -/
def normal_at (point : Point) : Vector := point.subP Point.zero

end Sphere

namespace Plane

/-- Embeds `Plane::intersects`: no hit when `|direction.y| < EPSILON`,
else the single root `-origin.y / direction.y`. -/
def intersects (ray : Ray) (object : Object) : List Intersection :=
  if |ray.direction.y| < EPSILON then []
  else [⟨-ray.origin.y / ray.direction.y, object⟩]

/-- Embeds `Plane::normal_at` (constant (0,1,0)). -/
def normal_at (_point : Point) : Vector := ⟨0, 1, 0⟩

end Plane

namespace Cube

/-- Models `numerator * f64::INFINITY` in `Cube::check_axis`.  A zero
numerator gives IEEE NaN (origin component exactly on a slab face with a
near-parallel direction); that corner is outside this model and is mapped
to `⊤`. -/
def mulInf (x : ℝ) : EReal := if x < 0 then ⊥ else ⊤

/-- Embeds `Cube::check_axis` (note the source's inline `1e-5` bound),
including the final swap. -/
def check_axis (origin direction : ℝ) : EReal × EReal :=
  let tmin_numerator := -1 - origin
  let tmax_numerator := 1 - origin
  let pair : EReal × EReal :=
    if |direction| ≥ 1/100000 then
      (((tmin_numerator / direction : ℝ) : EReal), ((tmax_numerator / direction : ℝ) : EReal))
    else (mulInf tmin_numerator, mulInf tmax_numerator)
  if pair.1 > pair.2 then (pair.2, pair.1) else pair

/-- Embeds `Cube::intersects`.  Note the first line: the kernel applies
`object.transform_inverse` to the ray it receives — even though
`Object::intersect` has already transformed the ray into object space.
`EReal.toReal` maps the (direction-degenerate) infinite slab bounds to 0;
for every ray with a direction component ≥ 1e-5 both returned t-values
are finite. -/
def intersects (ray : Ray) (object : Object) : List Intersection :=
  let ray := ray.transform object.transform_inverse
  let xt := check_axis ray.origin.x ray.direction.x
  let yt := check_axis ray.origin.y ray.direction.y
  let zt := check_axis ray.origin.z ray.direction.z
  let tmin := max (max xt.1 yt.1) zt.1
  let tmax := min (min xt.2 yt.2) zt.2
  if tmin > tmax then []
  else [⟨tmin.toReal, object⟩, ⟨tmax.toReal, object⟩]

/-- Embeds `Cube::normal_at` (largest absolute component wins, in x, y, z
order). -/
def normal_at (point : Point) : Vector :=
  let maxc := max (max |point.x| |point.y|) |point.z|
  if maxc = |point.x| then ⟨point.x, 0, 0⟩
  else if maxc = |point.y| then ⟨0, point.y, 0⟩
  else ⟨0, 0, point.z⟩

end Cube

namespace Cylinder

/-- Embeds `Cylinder::check_cap` (cap disc of radius 1). -/
def check_cap (ray : Ray) (t : ℝ) : Prop :=
  (ray.origin.x + t * ray.direction.x) ^ 2 + (ray.origin.z + t * ray.direction.z) ^ 2 ≤ 1

/-- Embeds `Cylinder::intersection_at_caps`: nothing unless closed and the
direction has a non-negligible y; each cap root kept if inside the disc. -/
def intersection_at_caps (minimum maximum : ℝ) (closed : Bool) (ray : Ray)
    (object : Object) : List Intersection :=
  if closed = false ∨ approxEq ray.direction.y 0 then []
  else
    let t0 := (minimum - ray.origin.y) / ray.direction.y
    let t1 := (maximum - ray.origin.y) / ray.direction.y
    (if check_cap ray t0 then [⟨t0, object⟩] else [])
      ++ (if check_cap ray t1 then [⟨t1, object⟩] else [])

/-- Embeds `Cylinder::intersects`: the wall quadratic (skipped when `a ≈ 0`),
roots kept only strictly between the bounds, then the caps. -/
def intersects (minimum maximum : ℝ) (closed : Bool) (ray : Ray)
    (object : Object) : List Intersection :=
  let a := ray.direction.x ^ 2 + ray.direction.z ^ 2
  if approxEq a 0 then intersection_at_caps minimum maximum closed ray object
  else
    let b := 2 * ray.origin.x * ray.direction.x + 2 * ray.origin.z * ray.direction.z
    let c := ray.origin.x ^ 2 + ray.origin.z ^ 2 - 1
    let discriminant := b ^ 2 - 4 * a * c
    if discriminant < 0 then []
    else
      let t0 := (-b - Real.sqrt discriminant) / (2 * a)
      let t1 := (-b + Real.sqrt discriminant) / (2 * a)
      let p := if t0 > t1 then (t1, t0) else (t0, t1)
      let y0 := ray.origin.y + p.1 * ray.direction.y
      let y1 := ray.origin.y + p.2 * ray.direction.y
      (if minimum < y0 ∧ y0 < maximum then [⟨p.1, object⟩] else [])
        ++ (if minimum < y1 ∧ y1 < maximum then [⟨p.2, object⟩] else [])
        ++ intersection_at_caps minimum maximum closed ray object

/-- Embeds `Cylinder::normal_at`: cap normals when inside the unit disc and
within `LOW_EPSILON` of a bound (the `closed` flag is not consulted), else
the wall normal `(x, 0, z)`. -/
def normal_at (minimum maximum : ℝ) (p : Point) : Vector :=
  let dist := p.x ^ 2 + p.z ^ 2
  if dist < 1 ∧ p.y ≥ maximum - LOW_EPSILON then ⟨0, 1, 0⟩
  else if dist < 1 ∧ p.y ≤ minimum + LOW_EPSILON then ⟨0, -1, 0⟩
  else ⟨p.x, 0, p.z⟩

end Cylinder

namespace Cone

/-- Embeds `Cone::check_cap` (compares the squared cap distance against
`|y|`, as the source does). -/
def check_cap (ray : Ray) (t y : ℝ) : Prop :=
  (ray.origin.x + t * ray.direction.x) ^ 2 + (ray.origin.z + t * ray.direction.z) ^ 2 ≤ |y|

/-- Embeds `Cone::intersection_at_caps`. -/
def intersection_at_caps (minimum maximum : ℝ) (closed : Bool) (ray : Ray)
    (object : Object) : List Intersection :=
  if closed = false ∨ approxEq ray.direction.y 0 then []
  else
    let t0 := (minimum - ray.origin.y) / ray.direction.y
    let t1 := (maximum - ray.origin.y) / ray.direction.y
    (if check_cap ray t0 minimum then [⟨t0, object⟩] else [])
      ++ (if check_cap ray t1 maximum then [⟨t1, object⟩] else [])

/-- Embeds `Cone::intersects`: the double-cone quadratic with the
parallel-to-surface (`a ≈ 0 ∧ b ≈ 0`) and single-root (`a ≈ 0 ∧ b ≉ 0`)
special cases, wall roots filtered strictly by the bounds, then the caps. -/
def intersects (minimum maximum : ℝ) (closed : Bool) (ray : Ray)
    (object : Object) : List Intersection :=
  let a := ray.direction.x ^ 2 - ray.direction.y ^ 2 + ray.direction.z ^ 2
  let b := 2 * ray.origin.x * ray.direction.x - 2 * ray.origin.y * ray.direction.y
    + 2 * ray.origin.z * ray.direction.z
  let c := ray.origin.x ^ 2 - ray.origin.y ^ 2 + ray.origin.z ^ 2
  if approxEq a 0 ∧ approxEq b 0 then
    intersection_at_caps minimum maximum closed ray object
  else if approxEq a 0 ∧ ¬approxEq b 0 then
    ⟨-c / (2 * b), object⟩ :: intersection_at_caps minimum maximum closed ray object
  else
    let discriminant := b ^ 2 - 4 * a * c
    if discriminant < 0 then []
    else
      let t0 := (-b - Real.sqrt discriminant) / (2 * a)
      let t1 := (-b + Real.sqrt discriminant) / (2 * a)
      let p := if t0 > t1 then (t1, t0) else (t0, t1)
      let y0 := ray.origin.y + p.1 * ray.direction.y
      let y1 := ray.origin.y + p.2 * ray.direction.y
      (if minimum < y0 ∧ y0 < maximum then [⟨p.1, object⟩] else [])
        ++ (if minimum < y1 ∧ y1 < maximum then [⟨p.2, object⟩] else [])
        ++ intersection_at_caps minimum maximum closed ray object

/-- Embeds `Cone::normal_at`: cap branches as for the cylinder; on the
wall, the y component is `∓√(x²+z²)` (negated above the apex). -/
def normal_at (minimum maximum : ℝ) (p : Point) : Vector :=
  let dist := p.x ^ 2 + p.z ^ 2
  if dist < 1 ∧ p.y ≥ maximum - LOW_EPSILON then ⟨0, 1, 0⟩
  else if dist < 1 ∧ p.y ≤ minimum + LOW_EPSILON then ⟨0, -1, 0⟩
  else
    let y := Real.sqrt (p.x ^ 2 + p.z ^ 2)
    ⟨p.x, if p.y > 0 then -y else y, p.z⟩

end Cone

namespace Shape

/-- Embeds `Shape::intersect` (dispatch to the per-variant kernels). -/
def intersect (s : Shape) (ray : Ray) (object : Object) : List Intersection :=
  match s with
  | .sphere => Sphere.intersects ray object
  | .plane => Plane.intersects ray object
  | .cube => Cube.intersects ray object
  | .cylinder minimum maximum closed => Cylinder.intersects minimum maximum closed ray object
  | .cone minimum maximum closed => Cone.intersects minimum maximum closed ray object

/-- Embeds `Shape::normal_at` (dispatch to the per-variant kernels). -/
def normal_at (s : Shape) (object_point : Point) : Vector :=
  match s with
  | .sphere => Sphere.normal_at object_point
  | .plane => Plane.normal_at object_point
  | .cube => Cube.normal_at object_point
  | .cylinder minimum maximum _ => Cylinder.normal_at minimum maximum object_point
  | .cone minimum maximum _ => Cone.normal_at minimum maximum object_point

end Shape

namespace Object

/-- Embeds `Object::intersect`: transform the ray by the cached inverse,
then dispatch to the shape kernel. -/
def intersect (o : Object) (ray : Ray) : List Intersection :=
  o.shape.intersect (ray.transform o.transform_inverse) o

/-- Embeds `Object::normal_at`: to object space, kernel normal, multiply
by the cached inverse-transpose, normalize. -/
def normal_at (o : Object) (world_point : Point) : Vector :=
  let object_point := o.to_object_space world_point
  let object_normal := o.shape.normal_at object_point
  let world_normal := o.transform_inverse_transpose.mulVector object_normal
  world_normal.normalize

end Object

/-- Insertion step for the model of `Intersections::sort`. -/
def orderedInsertT (i : Intersection) : List Intersection → List Intersection
  | [] => [i]
  | j :: rest => if i.t ≤ j.t then i :: j :: rest else j :: orderedInsertT i rest

/-- Models `Intersections::sort` (`sort_unstable` under the `Ord` impl of
`Intersection`) as an insertion sort.  On the NaN-free real model the
source comparator coincides with `t ≤ t`; the NaN-aware comparator itself
is embedded and verified in the `FtModel` section below. -/
def sortIntersections (l : List Intersection) : List Intersection :=
  l.foldr orderedInsertT []

/-- Embeds `Intersections::hit`: the first element (in the collection's
current order) with `t >= 0.0`. -/
def hit : List Intersection → Option Intersection
  | [] => none
  | i :: rest => if i.t ≥ 0 then some i else hit rest

/-- Embeds `rtc::intersection::RefractionState`. -/
structure RefractionState where
  n1 : ℚ
  n2 : ℚ
  is_entering : Bool
deriving DecidableEq

/-- Embeds `calculate_refraction_state`.  `is_entering` holds when no
stack entry is approx-equal to the object's index; the `last().expect`
panic on an empty stack is the `none` case; when exiting, `n2` is the
topmost entry not approx-equal to the index (`iter().rev().find`),
defaulting to the old top. -/
def calculate_refraction_state (ray : Ray) (intersection : Intersection) :
    Option RefractionState :=
  let current_index := intersection.object.material.refractive_index
  let objects := ray.refractive_indices
  let is_entering := (objects.find? (fun o => approxEqQ o current_index)).isNone
  match objects.getLast? with
  | none => none
  | some previous_refraction_index =>
    if is_entering then some ⟨previous_refraction_index, current_index, true⟩
    else
      let prev := objects.reverse.find? (fun o => ! approxEqQ o current_index)
      some ⟨previous_refraction_index, prev.getD previous_refraction_index, false⟩

/-- Embeds `rtc::intersection::IntersectionState`. -/
structure IntersectionState where
  t : ℝ
  object : Object
  eyev : Vector
  point : Point
  normalv : Vector
  inside : Bool
  over_point : Point
  reflectv : Vector
  n1 : ℚ
  n2 : ℚ
  under_point : Point
  is_entering : Bool

namespace IntersectionState

/-- Embeds `IntersectionState::prepare_computations`.  The Rust function
mutates the ray's index stack in place; the model returns the updated ray
alongside the state.  The `none` case is the empty-stack panic inside
`calculate_refraction_state`. -/
def prepare_computations (intersection : Intersection) (ray : Ray) :
    Option (IntersectionState × Ray) :=
  let t := intersection.t
  match calculate_refraction_state ray intersection with
  | none => none
  | some state =>
    let ray2 :=
      if state.is_entering then ray.add_index intersection.object.material.refractive_index
      else ray.remove_index intersection.object.material.refractive_index
    let object := intersection.object
    let point := ray2.position t
    let eyev := ray2.direction.neg
    let normalv := object.normal_at point
    let ni : Vector × Bool :=
      if normalv.dot_product eyev < 0 then (normalv.neg, true) else (normalv, false)
    let over_point := point.addV (ni.1.smul EPSILON)
    let under_point := point.subV (ni.1.smul EPSILON)
    let reflectv := ray2.direction.reflect ni.1
    some (⟨t, object, eyev, point, ni.1, ni.2, over_point, reflectv,
           state.n1, state.n2, under_point, state.is_entering⟩, ray2)

/-- Shared tail of `schlick`: `r0 + (1 - r0) * (1 - cos)^5` with
`r0 = ((n1 - n2) / (n1 + n2))^2` (the source computes this once, after the
possible reassignment of `cos`). -/
def schlick_mix (n1 n2 : ℚ) (cos : ℝ) : ℝ :=
  let r0 := (((n1 : ℝ) - (n2 : ℝ)) / ((n1 : ℝ) + (n2 : ℝ))) ^ 2
  r0 + (1 - r0) * (1 - cos) ^ 5

/-- Embeds `IntersectionState::schlick`: when `n1 > n2` the angle check
returns 1.0 under total internal reflection, otherwise `cos` is replaced
by `cos_t`. -/
def schlick (s : IntersectionState) : ℝ :=
  let cos := s.eyev.dot_product s.normalv
  if s.n1 > s.n2 then
    let n := ((s.n1 : ℝ)) / ((s.n2 : ℝ))
    let sin2_t := n ^ 2 * (1 - cos ^ 2)
    if sin2_t > 1 then 1
    else schlick_mix s.n1 s.n2 (Real.sqrt (1 - sin2_t))
  else schlick_mix s.n1 s.n2 cos

end IntersectionState

/-- Embeds `rtc::world::World` (`max_recursive_depth` is a `u8`, modelled
as `ℕ`). -/
structure World where
  objects : List Object
  lights : List PointLight
  max_recursive_depth : ℕ

namespace World

/-- Embeds `World::new` (empty scene, depth 5). -/
def new : World := ⟨[], [], 5⟩

def with_objects (w : World) (objects : List Object) : World := { w with objects := objects }

def with_lights (w : World) (lights : List PointLight) : World := { w with lights := lights }

def with_depth (w : World) (depth : ℕ) : World := { w with max_recursive_depth := depth }

def add_object (w : World) (object : Object) : World :=
  { w with objects := w.objects ++ [object] }

/-- Embeds `Default for World`: the two-sphere book scene — note the
depth is initialized to 6 here, not 5. -/
def dflt : World :=
  let light : PointLight := ⟨⟨1, 1, 1⟩, ⟨-10, 10, -10⟩⟩
  let s1 := Object.new_sphere.set_material
    (((Material.new.with_color ⟨8/10, 1, 6/10⟩).with_diffuse (7/10)).with_specular (2/10))
  let s2 := Object.new_sphere.set_transform (Matrix.id.scale (1/2) (1/2) (1/2))
  ⟨[s1, s2], [light], 6⟩

/-- Embeds `World::intersect`: every object's intersections are appended
in object order, then the whole list is sorted. -/
def intersect (w : World) (ray : Ray) : List Intersection :=
  sortIntersections ((w.objects.map (fun object => object.intersect ray)).flatten)

/-- Embeds `World::is_shadowed`.  The source indexes `lights[0]`; the
`none` case is the out-of-bounds panic of an empty light list. -/
def is_shadowed (w : World) (point : Point) : Option Bool :=
  match w.lights with
  | [] => none
  | light :: _ =>
    let v := light.position.subP point
    let distance := v.magnitude
    let direction := v.normalize
    let r := Ray.new point direction
    match hit (w.intersect r) with
    | some h => some (decide (h.t < distance))
    | none => some false

mutual

/-- Embeds `World::color_at_impl`: intersect, pick the hit, prepare the
state (whose empty-stack panic propagates as `none`), shade; black on a
miss. -/
def color_at_impl (w : World) (ray : Ray) (remaining_recursions : ℕ) : Option Color :=
  match hit (w.intersect ray) with
  | some h =>
    match IntersectionState.prepare_computations h ray with
    | none => none
    | some st => shade_hit w st.1 remaining_recursions
  | none => some ⟨0, 0, 0⟩
termination_by (remaining_recursions, 2)

/-- Embeds `World::shade_hit`: shadow test, reflected and refracted
contributions (both at the same `remaining_recursions`), Phong sum over
the lights, then the Schlick mix when the material is both reflective and
transparent. -/
def shade_hit (w : World) (state : IntersectionState) (remaining_recursions : ℕ) :
    Option Color :=
  let object_point := state.object.to_object_space state.over_point
  match w.is_shadowed state.over_point with
  | none => none
  | some shadowed =>
    match reflected_color w state remaining_recursions,
          refracted_color w state remaining_recursions with
    | some reflected, some refracted =>
      let surface_color := Color.sum (w.lights.map (fun light =>
        state.object.material.lighting light object_point state.over_point
          state.eyev state.normalv shadowed))
      let material := state.object.material
      if material.reflective > 0 ∧ material.transparency > 0 then
        let reflectance := state.schlick
        some ((surface_color.add (reflected.smul reflectance)).add
          (refracted.smul (1 - reflectance)))
      else some ((surface_color.add reflected).add refracted)
    | _, _ => none
termination_by (remaining_recursions, 1)

/-- Embeds `World::reflected_color`: black for a non-reflective material
or at depth 0; otherwise one bounce from `over_point` along `reflectv`,
recursing at `remaining_recursions - 1`. -/
def reflected_color (w : World) (comps : IntersectionState) (remaining_recursions : ℕ) :
    Option Color :=
  if h : comps.object.material.reflective = 0 ∨ remaining_recursions = 0 then
    some ⟨0, 0, 0⟩
  else
    let reflect_ray := Ray.new comps.over_point comps.reflectv
    match color_at_impl w reflect_ray (remaining_recursions - 1) with
    | some color => some (color.smul comps.object.material.reflective)
    | none => none
termination_by (remaining_recursions, 0)

/-- Embeds `World::refracted_color`: black for a (approx) non-transparent
material or at depth 0 or under total internal reflection; otherwise one
bounce from `under_point` with Snell's direction, the child ray's stack
starting at `[n2]`, recursing at `remaining_recursions - 1`. -/
def refracted_color (w : World) (comps : IntersectionState) (remaining_recursions : ℕ) :
    Option Color :=
  if h : approxEq comps.object.material.transparency 0 ∨ remaining_recursions = 0 then
    some Color.black
  else
    let nrat := ((comps.n1 : ℝ)) / ((comps.n2 : ℝ))
    let cos_i := comps.eyev.dot_product comps.normalv
    let sin2_t := nrat ^ 2 * (1 - cos_i ^ 2)
    if sin2_t > 1 then some Color.black
    else
      let cos_t := Real.sqrt (1 - sin2_t)
      let direction := (comps.normalv.smul (nrat * cos_i - cos_t)).sub (comps.eyev.smul nrat)
      let outside_index := comps.n2
      let refract_ray := (Ray.new comps.under_point direction).with_indices [outside_index]
      match color_at_impl w refract_ray (remaining_recursions - 1) with
      | some color => some (color.smul comps.object.material.transparency)
      | none => none
termination_by (remaining_recursions, 0)

end

/-- Embeds `World::color_at`: starts the recursion at the world's
`max_recursive_depth`. -/
def color_at (w : World) (ray : Ray) : Option Color :=
  color_at_impl w ray w.max_recursive_depth

end World

/-- Folds `prepare_computations` over a list of intersections (as the
nested-glass-spheres test does), threading the mutated ray and collecting
the `(n1, n2)` pair of each prepared state; `none` if any step panics. -/
def refractionTrace (ray : Ray) : List Intersection → Option (List (ℚ × ℚ) × Ray)
  | [] => some ([], ray)
  | i :: rest =>
    match IntersectionState.prepare_computations i ray with
    | none => none
    | some st =>
      match refractionTrace st.2 rest with
      | none => none
      | some pr => some ((st.1.n1, st.1.n2) :: pr.1, pr.2)

/-- The outer glass sphere (index 1.5) of the nested-spheres scenario
(`check_refractive_indices`): a glass sphere scaled by 2 whose material is
replaced by a fresh one with refractive index 1.5. -/
def glassSphereA : Object :=
  (Object.new_glass_sphere.set_transform (Matrix.id.scale 2 2 2)).set_material
    (Material.new.with_refractive_index (mkRat 3 2))

/-- The left inner glass sphere (index 2.0) of the nested-spheres scenario. -/
def glassSphereB : Object :=
  (Object.new_glass_sphere.set_transform (Matrix.id.translate 0 0 (-1/4))).set_material
    (Material.new.with_refractive_index 2)

/-- The right inner glass sphere (index 2.5) of the nested-spheres scenario. -/
def glassSphereC : Object :=
  (Object.new_glass_sphere.set_transform (Matrix.id.translate 0 0 (1/4))).set_material
    (Material.new.with_refractive_index (mkRat 5 2))

/-- The literal intersection sequence of the nested/overlapping
glass-spheres scenario. -/
def glassSphereSeq : List Intersection :=
  [⟨2, glassSphereA⟩, ⟨11/4, glassSphereB⟩, ⟨13/4, glassSphereC⟩,
   ⟨19/4, glassSphereB⟩, ⟨21/4, glassSphereC⟩, ⟨6, glassSphereA⟩]

/-- A concrete intersection state (eye along the normal, n1 = 2, n2 = 1)
used to instantiate the Schlick bounds theorem. -/
def schlickWitnessState : IntersectionState :=
  ⟨0, Object.dflt, ⟨1, 0, 0⟩, ⟨0, 0, 0⟩, ⟨1, 0, 0⟩, false, ⟨0, 0, 0⟩,
   ⟨0, 0, 0⟩, 2, 1, ⟨0, 0, 0⟩, false⟩

/-- Modelled from the spec: the object-space surface of each primitive
per the shape-kernel descriptions of §4.2 — the unit sphere, the plane
y = 0, the boundary of the cube [-1,1]³, the unit-radius cylinder wall
between the bounds together with its cap discs when closed, and the
double cone `x² + z² = y²` with cap discs of radius `|y|` (the source's
`check_cap` compares the squared distance against `|y|`). -/
def onSurface : Shape → Point → Prop
  | .sphere, q => q.x ^ 2 + q.y ^ 2 + q.z ^ 2 = 1
  | .plane, q => q.y = 0
  | .cube, q => max (max |q.x| |q.y|) |q.z| = 1
  | .cylinder minimum maximum closed, q =>
      (q.x ^ 2 + q.z ^ 2 = 1 ∧ minimum ≤ q.y ∧ q.y ≤ maximum) ∨
      (closed = true ∧ q.x ^ 2 + q.z ^ 2 ≤ 1 ∧ (q.y = minimum ∨ q.y = maximum))
  | .cone minimum maximum closed, q =>
      (q.x ^ 2 + q.z ^ 2 = q.y ^ 2 ∧ minimum ≤ q.y ∧ q.y ≤ maximum) ∨
      (closed = true ∧ q.x ^ 2 + q.z ^ 2 ≤ |q.y| ∧ (q.y = minimum ∨ q.y = maximum))

/-- The cone's apex (the object-space origin), the one surface point at
which the cone kernel returns the zero normal. -/
def isConeApex : Shape → Point → Prop
  | .cone _ _ _, q => q.x = 0 ∧ q.y = 0 ∧ q.z = 0
  | _, _ => False

/-- An object with the given shape and transform, as produced by the
corresponding `Object::new_*` constructor followed by `set_transform`. -/
def mkShapeObject (sh : Shape) (A : Matrix) : Object :=
  Object.set_transform { Object.dflt with shape := sh } A

/-! ## Ft model: the t-value ordering including NaN

`Intersection::cmp` (the `Ord` impl) and `Intersections::hit` depend on
IEEE NaN, which the real model cannot express.  This dedicated model
represents a t-value as either NaN or a number (every non-NaN finite f64
is rational), embeds the comparator verbatim, and models `sort_unstable`
as an insertion sort driven by that comparator. -/

/-- A t-value for the ordering model: NaN or a number. -/
inductive Ft where
  | nan
  | num (q : ℚ)
deriving DecidableEq

/-- Embeds `impl Ord for Intersection`: NaN on the left is `Greater`, NaN
on the right is `Less`, numbers compare numerically. -/
def cmpF : Ft → Ft → Ordering
  | .nan, _ => .gt
  | .num _, .nan => .lt
  | .num a, .num b => if a < b then .lt else if a > b then .gt else .eq

/-- An intersection for the ordering model: a t-value and an object tag. -/
structure InterF where
  t : Ft
  objId : ℕ
deriving DecidableEq

/-- Embeds the `t >= 0.0` test of `Intersections::hit` (false for NaN). -/
def geZeroF : Ft → Bool
  | .nan => false
  | .num q => decide (0 ≤ q)

/-- Insertion step of the `sort_unstable` model: an element is placed
before the first element it does not compare `Greater` than. -/
def orderedInsertF (x : InterF) : List InterF → List InterF
  | [] => [x]
  | y :: rest =>
    if cmpF x.t y.t ≠ Ordering.gt then x :: y :: rest else y :: orderedInsertF x rest

/-- Models `Intersections::sort` in the Ft model. -/
def sortF (l : List InterF) : List InterF := l.foldr orderedInsertF []

/-- Embeds `Intersections::hit` in the Ft model. -/
def hitF : List InterF → Option InterF
  | [] => none
  | i :: rest => if geZeroF i.t then some i else hitF rest

/-- The claim's target order: a pair is admissible when the right element
is NaN, or both are numbers in ascending order; a NaN never precedes a
number.  `List.Pairwise ascR` therefore says "ascending by t with every
NaN at the end". -/
def ascR (a b : InterF) : Prop :=
  match a.t, b.t with
  | _, .nan => True
  | .nan, .num _ => False
  | .num qa, .num qb => qa ≤ qb

/-! ## Theorems -/

theorem orderedInsertF_perm (x : InterF) (l : List InterF) :
    List.Perm (orderedInsertF x l) (x :: l) := by
  induction l with
  | nil => exact List.Perm.refl _
  | cons y rest ih =>
    unfold orderedInsertF
    split
    · exact List.Perm.refl _
    · exact (ih.cons y).trans (List.Perm.swap x y rest)

theorem sortF_perm (l : List InterF) : List.Perm (sortF l) l := by
  induction l with
  | nil => exact List.Perm.refl _
  | cons x rest ih => exact (orderedInsertF_perm x (sortF rest)).trans (ih.cons x)

theorem cmpF_num_ne_gt {a b : ℚ} (h : a ≤ b) :
    cmpF (Ft.num a) (Ft.num b) ≠ Ordering.gt := by
  by_cases hab : a < b
  · simp [cmpF, if_pos hab]
  · have hba : ¬ a > b := not_lt.mpr h
    simp [cmpF, if_neg hab, if_neg hba]

theorem ascR_of_cmp_ne_gt {x y : InterF} (h : cmpF x.t y.t ≠ Ordering.gt) :
    ascR x y := by
  rcases hx : x.t with _ | a <;> rcases hy : y.t with _ | b
  · rw [hx, hy] at h; exact absurd rfl h
  · rw [hx, hy] at h; exact absurd rfl h
  · simp [ascR, hx, hy]
  · rw [hx, hy] at h
    simp only [ascR, hx, hy]
    by_cases hab : a < b
    · exact hab.le
    · by_cases hba : a > b
      · exact absurd (by simp [cmpF, if_neg hab, if_pos hba]) h
      · exact le_of_not_lt hba

theorem ascR_of_cmp_gt {x y : InterF} (h : cmpF x.t y.t = Ordering.gt) :
    ascR y x := by
  rcases hx : x.t with _ | a <;> rcases hy : y.t with _ | b
  · simp [ascR, hx, hy]
  · simp [ascR, hx, hy]
  · rw [hx, hy] at h; simp [cmpF] at h
  · rw [hx, hy] at h
    simp only [ascR, hx, hy]
    by_cases hab : a < b
    · simp [cmpF, if_pos hab] at h
    · by_cases hba : a > b
      · exact hba.le
      · simp [cmpF, if_neg hab, if_neg hba] at h

theorem ascR_trans {a b c : InterF} (hab : ascR a b) (hbc : ascR b c) : ascR a c := by
  rcases ha : a.t with _ | qa <;> rcases hb : b.t with _ | qb <;>
    rcases hc : c.t with _ | qc <;> simp_all [ascR]
  linarith

theorem pairwise_orderedInsertF {x : InterF} {l : List InterF}
    (hl : l.Pairwise ascR) : (orderedInsertF x l).Pairwise ascR := by
  induction l with
  | nil => simp [orderedInsertF]
  | cons y rest ih =>
    rw [List.pairwise_cons] at hl
    obtain ⟨hy, hrest⟩ := hl
    unfold orderedInsertF
    split
    · rename_i hcmp
      refine List.pairwise_cons.mpr ⟨?_, List.pairwise_cons.mpr ⟨hy, hrest⟩⟩
      intro z hz
      rcases List.mem_cons.mp hz with hz | hz
      · exact hz ▸ ascR_of_cmp_ne_gt hcmp
      · exact ascR_trans (ascR_of_cmp_ne_gt hcmp) (hy z hz)
    · rename_i hcmp
      refine List.pairwise_cons.mpr ⟨?_, ih hrest⟩
      intro z hz
      rcases List.mem_cons.mp ((orderedInsertF_perm x rest).mem_iff.mp hz) with hz | hz
      · exact hz ▸ ascR_of_cmp_gt (not_not.mp hcmp)
      · exact hy z hz

theorem sortF_pairwise (l : List InterF) : (sortF l).Pairwise ascR := by
  induction l with
  | nil => simp [sortF]
  | cons x rest ih => exact pairwise_orderedInsertF ih

theorem cmp_ne_gt_of_ascR {i j : InterF} (hij : ascR i j)
    (hi : geZeroF i.t = true) (hj : geZeroF j.t = true) :
    cmpF i.t j.t ≠ Ordering.gt := by
  rcases hti : i.t with _ | qa <;> rcases htj : j.t with _ | qb
  · rw [hti] at hi; simp [geZeroF] at hi
  · rw [hti] at hi; simp [geZeroF] at hi
  · rw [htj] at hj; simp [geZeroF] at hj
  · simp only [ascR, hti, htj] at hij
    exact cmpF_num_ne_gt hij

theorem hitF_sorted_spec (s : List InterF) (hs : s.Pairwise ascR) :
    (match hitF s with
     | some i => geZeroF i.t = true ∧
        ∀ j ∈ s, geZeroF j.t = true → cmpF i.t j.t ≠ Ordering.gt
     | none => ∀ j ∈ s, geZeroF j.t = false) := by
  induction s with
  | nil => simp [hitF]
  | cons i rest ih =>
    rw [List.pairwise_cons] at hs
    obtain ⟨hiR, hrest⟩ := hs
    have ihr := ih hrest
    by_cases hge : geZeroF i.t = true
    · simp only [hitF, hge, if_true]
      refine ⟨trivial, ?_⟩
      intro j hj hjge
      rcases List.mem_cons.mp hj with hj | hj
      · subst hj
        rcases hji : j.t with _ | q
        · rw [hji] at hge; simp [geZeroF] at hge
        · exact cmpF_num_ne_gt le_rfl
      · exact cmp_ne_gt_of_ascR (hiR j hj) hge hjge
    · have hge' : geZeroF i.t = false := by
        simpa using hge
      simp only [hitF, hge', Bool.false_eq_true, if_false]
      rcases hh : hitF rest with _ | k
      · rw [hh] at ihr
        intro j hj
        rcases List.mem_cons.mp hj with hj | hj
        · exact hj ▸ hge'
        · exact ihr j hj
      · rw [hh] at ihr
        refine ⟨ihr.1, ?_⟩
        intro j hj hjge
        rcases List.mem_cons.mp hj with hj | hj
        · rw [hj, hge'] at hjge
          simp at hjge
        · exact ihr.2 j hj hjge

/-- C5: after `sort()` the intersections are in ascending order of t with
every NaN-t intersection at the end (the embedded comparator makes NaN
greater than every number), the sorted list is a permutation of the
input, and on the sorted collection `hit()` returns the intersection with
the least non-negative t (never comparing `Greater` against any other
non-negative entry) — or `None` when no intersection has `t >= 0`.
`sort_unstable` is modelled as an insertion sort driven by the embedded
`Ord` comparator. -/
theorem c5_sort_ascending_nan_last_and_hit_least (l : List InterF) :
    (sortF l).Pairwise ascR ∧ List.Perm (sortF l) l ∧
    (match hitF (sortF l) with
     | some i => geZeroF i.t = true ∧
        ∀ j ∈ sortF l, geZeroF j.t = true → cmpF i.t j.t ≠ Ordering.gt
     | none => ∀ j ∈ sortF l, geZeroF j.t = false) :=
  ⟨sortF_pairwise l, sortF_perm l, hitF_sorted_spec (sortF l) (sortF_pairwise l)⟩

/-- C10: for every `min` and `max`, `Object::new_closed_cone(min, max)`
returns an object whose shape variant is `Shape::Cylinder(min, max, true)`
— a closed cylinder, not a cone — so `Shape::intersect` and
`Shape::normal_at` dispatch it to the cylinder kernel, unlike
`Object::new_cone`, which produces `Shape::Cone(min, max, false)`. -/
theorem c10_new_closed_cone_is_closed_cylinder (minimum maximum : ℝ) :
    (Object.new_closed_cone minimum maximum).shape = Shape.cylinder minimum maximum true ∧
    (Object.new_cone minimum maximum).shape = Shape.cone minimum maximum false ∧
    (∀ (ray : Ray) (o : Object),
      (Object.new_closed_cone minimum maximum).shape.intersect ray o =
        Cylinder.intersects minimum maximum true ray o) ∧
    (∀ p : Point,
      (Object.new_closed_cone minimum maximum).shape.normal_at p =
        Cylinder.normal_at minimum maximum p) :=
  ⟨rfl, rfl, fun _ _ => rfl, fun _ => rfl⟩

/-- C6 counterexample: `Default for World` initializes
`max_recursive_depth` to 6, not to the claimed default 5. -/
theorem c6_default_world_depth_is_not_five :
    World.dflt.max_recursive_depth ≠ 5 := by
  intro h
  simp [World.dflt] at h

/-- C6 amended: `World::new()` initializes the recursion bound to 5,
while `Default for World` initializes it to 6. -/
theorem c6_amended_new_five_default_six :
    World.new.max_recursive_depth = 5 ∧ World.dflt.max_recursive_depth = 6 :=
  ⟨rfl, rfl⟩

/-- C3: `Ray::new` initializes the refractive-index stack to the empty
vector (not `[1.0]`), and `calculate_refraction_state` on such a fresh ray
always hits the `last().expect("Never should be empty - outside world is
always 1.0")` panic (the `none` case), for every intersection. -/
theorem c3_fresh_ray_stack_empty_and_lookup_panics (o : Point) (d : Vector)
    (i : Intersection) :
    (Ray.new o d).refractive_indices = [] ∧
    calculate_refraction_state (Ray.new o d) i = none :=
  ⟨rfl, rfl⟩

/-- C1: `Matrix::rotate_z` does not pre-multiply the accumulated matrix —
it returns the bare rotation matrix.  At the accumulated translation
`T = Matrix::id().translate(5, -3, 2)` and angle 0, the fluent call
`T.rotate_z(0.0)` differs from the claimed `Rz(0) * T` (their (0,3)
entries are 0 and 5). -/
theorem c1_rotate_z_drops_accumulated_matrix :
    (Matrix.id.translate 5 (-3) 2).rotate_z 0 ≠
      Matrix.mul (Matrix.id.rotate_z 0) (Matrix.id.translate 5 (-3) 2) := by
  intro hEq
  have h3 := congrArg Matrix.m03 hEq
  simp [Matrix.rotate_z, Matrix.translate, Matrix.mul, Matrix.id,
    Real.cos_zero, Real.sin_zero] at h3

theorem approxEqQ_iff (a b : ℚ) : approxEqQ a b = true ↔ |a - b| ≤ EPSILONQ := by
  rw [approxEqQ, decide_eq_true_eq, EPSILONQ]
  have hda : (0:ℚ) < (a.den : ℚ) := by exact_mod_cast a.pos
  have hdb : (0:ℚ) < (b.den : ℚ) := by exact_mod_cast b.pos
  have hsub : a - b =
      ((a.num * b.den - b.num * a.den : ℤ) : ℚ) / ((a.den : ℚ) * b.den) := by
    rw [eq_div_iff (by positivity)]
    push_cast
    rw [sub_mul]
    rw [show a * ((a.den : ℚ) * b.den) = a * a.den * b.den by ring,
        show b * ((a.den : ℚ) * b.den) = b * b.den * a.den by ring]
    rw [Rat.mul_den_eq_num, Rat.mul_den_eq_num]
  rw [hsub, abs_div, abs_of_pos (by positivity : (0:ℚ) < (a.den : ℚ) * b.den)]
  rw [div_le_div_iff₀ (by positivity) (by norm_num : (0:ℚ) < 100000)]
  rw [← Int.cast_abs, Int.abs_eq_natAbs, one_mul]
  norm_cast

theorem find?_eq_head?_filter {α : Type} (p : α → Bool) (l : List α) :
    l.find? p = (l.filter p).head? := by
  induction l with
  | nil => rfl
  | cons x rest ih =>
    by_cases hx : p x = true
    · rw [List.find?_cons_of_pos _ hx, List.filter_cons_of_pos hx]
      rfl
    · rw [List.find?_cons_of_neg _ hx,
        List.filter_cons_of_neg (by simpa using hx), ih]

theorem find?_reverse_eq_getLast?_filter {α : Type} (p : α → Bool) (l : List α) :
    l.reverse.find? p = (l.filter p).getLast? := by
  rw [find?_eq_head?_filter, List.filter_reverse, List.head?_reverse]

/-- C4 counterexample: on exit, occurrences of the object's index are
removed from the stack by exact equality, not approx-equality.  With the
glass sphere (index 1.5) and a stack holding 1.500001 — approx-equal to
1.5 (so the step is an exit) but not exactly equal — the claimed removal
would leave `[1.0]`, while `prepare_computations` leaves the entry in
place. -/
theorem c4_removal_is_exact_counterexample :
    approxEqQ (mkRat 1500001 1000000) (mkRat 3 2) = true ∧
    (IntersectionState.prepare_computations ⟨1, Object.new_glass_sphere⟩
        ((Ray.new ⟨0, 0, 0⟩ ⟨0, 0, 1⟩).with_indices [1, mkRat 1500001 1000000])).map
        (fun p => p.2.refractive_indices) = some [1, mkRat 1500001 1000000] ∧
    ([(1 : ℚ), mkRat 1500001 1000000] : List ℚ) ≠ [(1 : ℚ)] :=
  ⟨by decide, by decide, by decide⟩

/-- C4 amended: when preparing an intersection with an object of index k,
`is_entering` holds iff no stack entry is approx-equal to k; n1 is the top
of the stack (so the stack must be non-empty — see C3); if entering, n2 = k
and k is pushed; if exiting, n2 is the top of the stack with the
approx-equal occurrences of k discarded (defaulting to n1), but the stack
itself has the occurrences of k removed by exact equality.  Starting from
the vacuum stack `[1.0]`, the nested/overlapping glass-spheres sequence
yields the pairs (1.0,1.5), (1.5,2.0), (2.0,2.5), (2.5,2.5), (2.5,1.5),
(1.5,1.0). -/
theorem c4_amended_refraction_protocol :
    (∀ (r : Ray) (i : Intersection) (st : RefractionState),
      calculate_refraction_state r i = some st →
        (st.is_entering = true ↔
          ∀ x ∈ r.refractive_indices,
            approxEqQ x i.object.material.refractive_index = false) ∧
        some st.n1 = r.refractive_indices.getLast? ∧
        (st.is_entering = true → st.n2 = i.object.material.refractive_index) ∧
        (st.is_entering = false →
          st.n2 = ((r.refractive_indices.filter
              (fun o => ! approxEqQ o i.object.material.refractive_index)).getLast?).getD
            st.n1)) ∧
    (∀ (r r2 : Ray) (i : Intersection) (st : IntersectionState),
      IntersectionState.prepare_computations i r = some (st, r2) →
        r2.refractive_indices =
          if st.is_entering then
            r.refractive_indices ++ [i.object.material.refractive_index]
          else r.refractive_indices.filter
            (fun o => o ≠ i.object.material.refractive_index)) ∧
    (refractionTrace ((Ray.new ⟨0, 0, -4⟩ ⟨0, 0, 1⟩).with_indices [1])
        glassSphereSeq).map Prod.fst =
      some [(1, mkRat 3 2), (mkRat 3 2, 2), (2, mkRat 5 2), (mkRat 5 2, mkRat 5 2),
        (mkRat 5 2, mkRat 3 2), (mkRat 3 2, 1)] := by
  refine ⟨?_, ?_, by decide⟩
  · intro r i st hcalc
    simp only [calculate_refraction_state] at hcalc
    rcases hL : r.refractive_indices.getLast? with _ | prev
    · simp only [hL] at hcalc
      exact Option.noConfusion hcalc
    · simp only [hL] at hcalc
      by_cases hent :
          (r.refractive_indices.find?
            (fun o => approxEqQ o i.object.material.refractive_index)).isNone = true
      · rw [if_pos hent] at hcalc
        have hst := Option.some_inj.mp hcalc
        subst hst
        have hall : ∀ x ∈ r.refractive_indices,
            approxEqQ x i.object.material.refractive_index = false := by
          intro x hx
          have hnone := Option.isNone_iff_eq_none.mp hent
          have := List.find?_eq_none.mp hnone x hx
          simpa using this
        exact ⟨iff_of_true rfl hall, rfl, fun _ => rfl,
          fun hfalse => by simp at hfalse⟩
      · rw [if_neg hent] at hcalc
        have hst := Option.some_inj.mp hcalc
        subst hst
        have hsome : ∃ x, r.refractive_indices.find?
            (fun o => approxEqQ o i.object.material.refractive_index) = some x := by
          rcases hf : r.refractive_indices.find?
              (fun o => approxEqQ o i.object.material.refractive_index) with _ | x
          · exact absurd (by rw [hf]; rfl) hent
          · exact ⟨x, rfl⟩
        obtain ⟨x, hx⟩ := hsome
        have hmem := List.mem_of_find?_eq_some hx
        have hpx := List.find?_some hx
        refine ⟨iff_of_false (by simp) ?_, rfl, fun htrue => by simp at htrue,
          fun _ => ?_⟩
        · intro hall
          rw [hall x hmem] at hpx
          simp at hpx
        · simp only [find?_reverse_eq_getLast?_filter]
  · intro r r2 i st hprep
    simp only [IntersectionState.prepare_computations] at hprep
    rcases hcalc : calculate_refraction_state r i with _ | state
    · rw [hcalc] at hprep
      simp at hprep
    · rw [hcalc] at hprep
      simp only [Option.some_inj, Prod.mk.injEq] at hprep
      obtain ⟨hA, hB⟩ := hprep
      rw [← hA, ← hB]
      rcases hent : state.is_entering with _ | _
      · rw [if_neg (by simp [hent])]
        simp [hent, Ray.remove_index]
      · rw [if_pos (by simp [hent])]
        simp [hent, Ray.add_index]

/-- C4 amended witness: the protocol theorem applied to the first step of
the glass-spheres sequence (vacuum stack `[1.0]`, entering the outer
index-1.5 sphere). -/
theorem c4_amended_refraction_protocol_witness :
    calculate_refraction_state ((Ray.new ⟨0, 0, -4⟩ ⟨0, 0, 1⟩).with_indices [1])
      ⟨2, glassSphereA⟩ = some ⟨1, mkRat 3 2, true⟩ ∧
    ((⟨1, mkRat 3 2, true⟩ : RefractionState).is_entering = true ↔
      ∀ x ∈ ((Ray.new ⟨0, 0, -4⟩ ⟨0, 0, 1⟩).with_indices [1]).refractive_indices,
        approxEqQ x (Intersection.mk 2 glassSphereA).object.material.refractive_index
          = false) := by
  have hcalc : calculate_refraction_state
      ((Ray.new ⟨0, 0, -4⟩ ⟨0, 0, 1⟩).with_indices [1]) ⟨2, glassSphereA⟩
      = some ⟨1, mkRat 3 2, true⟩ := by decide
  exact ⟨hcalc, (c4_amended_refraction_protocol.1 _ _ _ hcalc).1⟩

/-- C7: the shading recursion is depth-bounded.  The mutual recursion of
`color_at_impl` / `shade_hit` / `reflected_color` / `refracted_color` is
accepted by Lean's termination checker on the lexicographic measure
(remaining_recursions, phase) — this is the well-foundedness claim —
because both bounce functions return immediately (black) when
`remaining_recursions == 0` and otherwise invoke `color_at_impl` at
exactly `remaining_recursions - 1`, as the unfolding equations below
state; `color_at` starts the recursion at the world's depth bound. -/
theorem c7_recursion_is_depth_bounded :
    (∀ (w : World) (r : Ray),
      World.color_at w r = World.color_at_impl w r w.max_recursive_depth) ∧
    (∀ (w : World) (c : IntersectionState),
      World.reflected_color w c 0 = some ⟨0, 0, 0⟩) ∧
    (∀ (w : World) (c : IntersectionState),
      World.refracted_color w c 0 = some Color.black) ∧
    (∀ (w : World) (c : IntersectionState) (d : ℕ),
      World.reflected_color w c (d + 1) =
        if c.object.material.reflective = 0 then some ⟨0, 0, 0⟩
        else
          match World.color_at_impl w (Ray.new c.over_point c.reflectv) d with
          | some color => some (color.smul c.object.material.reflective)
          | none => none) ∧
    (∀ (w : World) (c : IntersectionState) (d : ℕ),
      World.refracted_color w c (d + 1) =
        if approxEq c.object.material.transparency 0 then some Color.black
        else
          let nrat := ((c.n1 : ℝ)) / ((c.n2 : ℝ))
          let cos_i := c.eyev.dot_product c.normalv
          let sin2_t := nrat ^ 2 * (1 - cos_i ^ 2)
          if sin2_t > 1 then some Color.black
          else
            let cos_t := Real.sqrt (1 - sin2_t)
            let direction :=
              (c.normalv.smul (nrat * cos_i - cos_t)).sub (c.eyev.smul nrat)
            let refract_ray := (Ray.new c.under_point direction).with_indices [c.n2]
            match World.color_at_impl w refract_ray d with
            | some color => some (color.smul c.object.material.transparency)
            | none => none) := by
  refine ⟨fun w r => rfl, fun w c => ?_, fun w c => ?_, fun w c d => ?_, fun w c d => ?_⟩
  · rw [World.reflected_color]
    rw [dif_pos (Or.inr rfl)]
  · rw [World.refracted_color]
    rw [dif_pos (Or.inr rfl)]
  · rw [World.reflected_color]
    by_cases hrefl : c.object.material.reflective = 0
    · rw [dif_pos (Or.inl hrefl), if_pos hrefl]
    · rw [dif_neg (by simp [hrefl]), if_neg hrefl]
      rfl
  · rw [World.refracted_color]
    by_cases htr : approxEq c.object.material.transparency 0
    · rw [dif_pos (Or.inl htr), if_pos htr]
    · rw [dif_neg (by simp [htr]), if_neg htr]
      rfl

/-- C2: the cube kernel applies the object's inverse transform a second
time.  For a cube scaled by 2 and the world ray from (0,0,-5) along
(0,0,1), `Object::intersect` first maps the ray to object space (origin
(0,0,-2.5), direction (0,0,0.5)); a kernel operating on that object-space
ray would report t = 3 and 7, but `Cube::intersects` transforms the ray by
the inverse again (origin (0,0,-1.25), direction (0,0,0.25)) and reports
t = 1 and 9. -/
theorem c2_cube_kernel_retransforms_ray :
    ((Object.new_cube.set_transform (Matrix.id.scale 2 2 2)).intersect
        (Ray.new ⟨0, 0, -5⟩ ⟨0, 0, 1⟩)).map Intersection.t = [1, 9] ∧
    ([(1 : ℝ), 9] ≠ [(3 : ℝ), 7]) := by
  have hM : Matrix.id.scale 2 2 2 = ⟨2,0,0,0, 0,2,0,0, 0,0,2,0, 0,0,0,1⟩ := by
    ext <;> norm_num [Matrix.scale, Matrix.mul, Matrix.id]
  have hinv : (Matrix.id.scale 2 2 2).inverse =
      ⟨1/2,0,0,0, 0,1/2,0,0, 0,0,1/2,0, 0,0,0,1⟩ := by
    rw [hM]
    ext <;>
      norm_num [Matrix.inverse, Matrix.determinant, Matrix.cof00, Matrix.cof01,
        Matrix.cof02, Matrix.cof03, Matrix.cof10, Matrix.cof11, Matrix.cof12,
        Matrix.cof13, Matrix.cof20, Matrix.cof21, Matrix.cof22, Matrix.cof23,
        Matrix.cof30, Matrix.cof31, Matrix.cof32, Matrix.cof33, Matrix.subdet00,
        Matrix.subdet01, Matrix.subdet02, Matrix.subdet03, Matrix.subdet10,
        Matrix.subdet11, Matrix.subdet12, Matrix.subdet13, Matrix.subdet20,
        Matrix.subdet21, Matrix.subdet22, Matrix.subdet23, Matrix.subdet30,
        Matrix.subdet31, Matrix.subdet32, Matrix.subdet33, Matrix3.determinant,
        Matrix.scale, Matrix.mul, Matrix.id]
  refine ⟨?_, by norm_num⟩
  simp only [Object.intersect, Object.new_cube, Object.set_transform, Object.dflt, hinv]
  simp only [Shape.intersect, Cube.intersects, Ray.transform, Ray.new,
    Matrix.mulPoint, Matrix.mulVector, Cube.check_axis, Cube.mulInf]
  norm_num [abs_of_nonneg]
  have h9 : ¬ (((9 : ℝ) : EReal) < 1) := by
    rw [← EReal.coe_one, EReal.coe_lt_coe_iff]
    norm_num
  simp [h9, EReal.toReal_one, EReal.toReal_coe]

theorem schlick_mix_bounds {n1 n2 : ℚ} (hn1 : 1 ≤ n1) (hn2 : 1 ≤ n2) {cos : ℝ}
    (h0 : 0 ≤ cos) (h1 : cos ≤ 1) :
    0 ≤ IntersectionState.schlick_mix n1 n2 cos ∧
      IntersectionState.schlick_mix n1 n2 cos ≤ 1 := by
  have hn1r : (1:ℝ) ≤ (n1 : ℝ) := by exact_mod_cast hn1
  have hn2r : (1:ℝ) ≤ (n2 : ℝ) := by exact_mod_cast hn2
  rw [IntersectionState.schlick_mix]
  set r0 := (((n1 : ℝ) - (n2 : ℝ)) / ((n1 : ℝ) + (n2 : ℝ))) ^ 2 with hr0
  have h0r : 0 ≤ r0 := sq_nonneg _
  have h1r : r0 ≤ 1 := by
    have hden : (0:ℝ) < ((n1 : ℝ) + (n2 : ℝ)) ^ 2 := by nlinarith
    rw [hr0, div_pow]
    rw [div_le_one hden]
    nlinarith
  have hu0 : (0:ℝ) ≤ (1 - cos) ^ 5 := pow_nonneg (by linarith) 5
  have hu1 : (1 - cos) ^ 5 ≤ 1 := by
    apply pow_le_one₀ (by linarith) (by linarith)
  constructor
  · nlinarith
  · nlinarith

/-- C8: for every intersection state with `n1, n2 ≥ 1` and
`eyev · normalv ∈ [0, 1]`, the Schlick reflectance lies in `[0, 1]`, and
it equals exactly 1.0 under total internal reflection (`n1 > n2` and
`sin²_t = (n1/n2)²(1 − cos²) > 1`). -/
theorem c8_schlick_bounded_and_tir_one (s : IntersectionState)
    (hn1 : 1 ≤ s.n1) (hn2 : 1 ≤ s.n2)
    (hc0 : 0 ≤ s.eyev.dot_product s.normalv)
    (hc1 : s.eyev.dot_product s.normalv ≤ 1) :
    (0 ≤ s.schlick ∧ s.schlick ≤ 1) ∧
    (s.n1 > s.n2 →
      ((s.n1 : ℝ) / (s.n2 : ℝ)) ^ 2 * (1 - (s.eyev.dot_product s.normalv) ^ 2) > 1 →
      s.schlick = 1) := by
  rw [IntersectionState.schlick]
  by_cases hgt : s.n1 > s.n2
  · rw [if_pos hgt]
    by_cases htir :
        ((s.n1 : ℝ) / (s.n2 : ℝ)) ^ 2 * (1 - (s.eyev.dot_product s.normalv) ^ 2) > 1
    · rw [if_pos htir]
      exact ⟨⟨zero_le_one, le_refl 1⟩, fun _ _ => rfl⟩
    · rw [if_neg htir]
      have hsin0 : 0 ≤
          ((s.n1 : ℝ) / (s.n2 : ℝ)) ^ 2 * (1 - (s.eyev.dot_product s.normalv) ^ 2) := by
        have hc2 : (s.eyev.dot_product s.normalv) ^ 2 ≤ 1 := by nlinarith
        exact mul_nonneg (sq_nonneg _) (by linarith)
      have hs0 : 0 ≤ Real.sqrt
          (1 - ((s.n1 : ℝ) / (s.n2 : ℝ)) ^ 2 *
            (1 - (s.eyev.dot_product s.normalv) ^ 2)) := Real.sqrt_nonneg _
      have hs1 : Real.sqrt
          (1 - ((s.n1 : ℝ) / (s.n2 : ℝ)) ^ 2 *
            (1 - (s.eyev.dot_product s.normalv) ^ 2)) ≤ 1 :=
        Real.sqrt_le_one.mpr (by linarith)
      exact ⟨schlick_mix_bounds hn1 hn2 hs0 hs1, fun _ h => absurd h htir⟩
  · rw [if_neg hgt]
    exact ⟨schlick_mix_bounds hn1 hn2 hc0 hc1, fun h _ => absurd h hgt⟩

/-- C8 witness: the bounds theorem applied to a concrete state with
n1 = 2, n2 = 1 and eye along the normal. -/
theorem c8_schlick_bounded_witness :
    (1 ≤ schlickWitnessState.n1) ∧ (1 ≤ schlickWitnessState.n2) ∧
    (0 ≤ schlickWitnessState.eyev.dot_product schlickWitnessState.normalv) ∧
    (schlickWitnessState.eyev.dot_product schlickWitnessState.normalv ≤ 1) ∧
    (0 ≤ schlickWitnessState.schlick ∧ schlickWitnessState.schlick ≤ 1) := by
  have hd0 : 0 ≤ schlickWitnessState.eyev.dot_product schlickWitnessState.normalv := by
    norm_num [schlickWitnessState, Vector.dot_product]
  have hd1 : schlickWitnessState.eyev.dot_product schlickWitnessState.normalv ≤ 1 := by
    norm_num [schlickWitnessState, Vector.dot_product]
  exact ⟨by norm_num [schlickWitnessState], by norm_num [schlickWitnessState], hd0, hd1,
    (c8_schlick_bounded_and_tir_one schlickWitnessState
      (by norm_num [schlickWitnessState]) (by norm_num [schlickWitnessState])
      hd0 hd1).1⟩

/-- C9 counterexample: the cone's apex (0,0,0) lies on the surface of the
cone with bounds (-1, 1), yet `Object::normal_at` returns the zero vector
there (the kernel's wall normal is `(0, ∓√0, 0)`), whose magnitude 0 is
not 1 and not within the loose epsilon of 1 — under IEEE semantics the
division 0.0/0.0 would give NaN instead, which is not unit length either. -/
theorem c9_cone_apex_normal_not_unit :
    onSurface (Shape.cone (-1) 1 false) ⟨0, 0, 0⟩ ∧
    (Object.new_cone (-1) 1).normal_at ⟨0, 0, 0⟩ = ⟨0, 0, 0⟩ ∧
    ((Object.new_cone (-1) 1).normal_at ⟨0, 0, 0⟩).magnitude = 0 ∧
    ¬ (|((Object.new_cone (-1) 1).normal_at ⟨0, 0, 0⟩).magnitude - 1| ≤ LOW_EPSILON) := by
  have h1 : (Object.new_cone (-1) 1).normal_at ⟨0, 0, 0⟩ = ⟨0, 0, 0⟩ := by
    simp only [Object.normal_at, Object.new_cone, Object.dflt, Object.to_object_space,
      Shape.normal_at, Cone.normal_at, Matrix.mulPoint, Matrix.mulVector, Matrix.id,
      Vector.normalize, Vector.magnitude, LOW_EPSILON]
    norm_num
  refine ⟨by norm_num [onSurface], h1, ?_, ?_⟩
  · rw [h1]
    simp [Vector.magnitude]
  · rw [h1]
    simp [Vector.magnitude, LOW_EPSILON]
    norm_num

theorem normalize_magnitude_of_ne_zero {v : Vector} (hv : v ≠ ⟨0, 0, 0⟩) :
    v.normalize.magnitude = 1 := by
  have hs : 0 < v.x ^ 2 + v.y ^ 2 + v.z ^ 2 := by
    by_contra hns
    push_neg at hns
    have hx : v.x = 0 := by nlinarith [sq_nonneg v.x, sq_nonneg v.y, sq_nonneg v.z]
    have hy : v.y = 0 := by nlinarith [sq_nonneg v.x, sq_nonneg v.y, sq_nonneg v.z]
    have hz : v.z = 0 := by nlinarith [sq_nonneg v.x, sq_nonneg v.y, sq_nonneg v.z]
    exact hv (by cases v; simp_all)
  have hm : 0 < v.magnitude := Real.sqrt_pos.mpr hs
  rw [Vector.normalize, Vector.magnitude]
  have : (v.x / v.magnitude) ^ 2 + (v.y / v.magnitude) ^ 2 + (v.z / v.magnitude) ^ 2
      = 1 := by
    have hm2 : v.magnitude ^ 2 = v.x ^ 2 + v.y ^ 2 + v.z ^ 2 := by
      rw [Vector.magnitude]
      exact Real.sq_sqrt hs.le
    field_simp
    rw [hm2]
  rw [this, Real.sqrt_one]

theorem div_dot_one {c0 c1 c2 c3 a0 a1 a2 a3 d : ℝ} (hd : d ≠ 0)
    (h : c0 * a0 + c1 * a1 + c2 * a2 + c3 * a3 = d) :
    c0 / d * a0 + c1 / d * a1 + c2 / d * a2 + c3 / d * a3 = 1 := by
  have hc : c0 / d * a0 + c1 / d * a1 + c2 / d * a2 + c3 / d * a3
      = (c0 * a0 + c1 * a1 + c2 * a2 + c3 * a3) / d := by ring
  rw [hc, h, div_self hd]

theorem div_dot_zero {c0 c1 c2 c3 a0 a1 a2 a3 d : ℝ}
    (h : c0 * a0 + c1 * a1 + c2 * a2 + c3 * a3 = 0) :
    c0 / d * a0 + c1 / d * a1 + c2 / d * a2 + c3 / d * a3 = 0 := by
  have hc : c0 / d * a0 + c1 / d * a1 + c2 / d * a2 + c3 / d * a3
      = (c0 * a0 + c1 * a1 + c2 * a2 + c3 * a3) / d := by ring
  rw [hc, h, zero_div]

set_option maxHeartbeats 1000000 in
theorem inverse_mul_of_det_ne_zero (A : Matrix) (h : A.determinant ≠ 0) :
    (A.inverse).mul A = Matrix.id := by
  ext <;> simp only [Matrix.inverse, Matrix.mul, Matrix.id] <;>
    first
      | (refine div_dot_one h ?_
         simp only [Matrix.determinant, Matrix.cof00, Matrix.cof01, Matrix.cof02,
           Matrix.cof03, Matrix.cof10, Matrix.cof11, Matrix.cof12, Matrix.cof13,
           Matrix.cof20, Matrix.cof21, Matrix.cof22, Matrix.cof23, Matrix.cof30,
           Matrix.cof31, Matrix.cof32, Matrix.cof33, Matrix.subdet00, Matrix.subdet01,
           Matrix.subdet02, Matrix.subdet03, Matrix.subdet10, Matrix.subdet11,
           Matrix.subdet12, Matrix.subdet13, Matrix.subdet20, Matrix.subdet21,
           Matrix.subdet22, Matrix.subdet23, Matrix.subdet30, Matrix.subdet31,
           Matrix.subdet32, Matrix.subdet33, Matrix3.determinant]
         ring)
      | (refine div_dot_zero ?_
         simp only [Matrix.determinant, Matrix.cof00, Matrix.cof01, Matrix.cof02,
           Matrix.cof03, Matrix.cof10, Matrix.cof11, Matrix.cof12, Matrix.cof13,
           Matrix.cof20, Matrix.cof21, Matrix.cof22, Matrix.cof23, Matrix.cof30,
           Matrix.cof31, Matrix.cof32, Matrix.cof33, Matrix.subdet00, Matrix.subdet01,
           Matrix.subdet02, Matrix.subdet03, Matrix.subdet10, Matrix.subdet11,
           Matrix.subdet12, Matrix.subdet13, Matrix.subdet20, Matrix.subdet21,
           Matrix.subdet22, Matrix.subdet23, Matrix.subdet30, Matrix.subdet31,
           Matrix.subdet32, Matrix.subdet33, Matrix3.determinant]
         ring)

theorem id_mulPoint (p : Point) : Matrix.id.mulPoint p = p := by
  ext <;> simp [Matrix.id, Matrix.mulPoint]

theorem mulPoint_mul_affine (M N : Matrix) (p : Point)
    (h30 : N.m30 = 0) (h31 : N.m31 = 0) (h32 : N.m32 = 0) (h33 : N.m33 = 1) :
    (M.mul N).mulPoint p = M.mulPoint (N.mulPoint p) := by
  ext <;> simp only [Matrix.mul, Matrix.mulPoint, h30, h31, h32, h33] <;> ring

theorem transpose_inverse_mulVector_ne_zero (A : Matrix) (hdet : A.determinant ≠ 0)
    (h30 : A.m30 = 0) (h31 : A.m31 = 0) (h32 : A.m32 = 0) (h33 : A.m33 = 1)
    (n : Vector) (hn : n ≠ ⟨0, 0, 0⟩) :
    (A.inverse.transpose).mulVector n ≠ ⟨0, 0, 0⟩ := by
  intro h0
  have hBA := inverse_mul_of_det_ne_zero A hdet
  have e00 := congrArg Matrix.m00 hBA
  have e10 := congrArg Matrix.m10 hBA
  have e20 := congrArg Matrix.m20 hBA
  have e01 := congrArg Matrix.m01 hBA
  have e11 := congrArg Matrix.m11 hBA
  have e21 := congrArg Matrix.m21 hBA
  have e02 := congrArg Matrix.m02 hBA
  have e12 := congrArg Matrix.m12 hBA
  have e22 := congrArg Matrix.m22 hBA
  simp only [Matrix.mul, Matrix.id] at e00 e10 e20 e01 e11 e21 e02 e12 e22
  have hx := congrArg Vector.x h0
  have hy := congrArg Vector.y h0
  have hz := congrArg Vector.z h0
  simp only [Matrix.transpose, Matrix.mulVector, mul_zero, add_zero] at hx hy hz
  apply hn
  have hnx : n.x = 0 := by
    linear_combination (-n.x) * e00 + (-n.y) * e10 + (-n.z) * e20 + A.m00 * hx
      + A.m10 * hy + A.m20 * hz
      + (n.x * A.inverse.m03 + n.y * A.inverse.m13 + n.z * A.inverse.m23) * h30
  have hny : n.y = 0 := by
    linear_combination (-n.x) * e01 + (-n.y) * e11 + (-n.z) * e21 + A.m01 * hx
      + A.m11 * hy + A.m21 * hz
      + (n.x * A.inverse.m03 + n.y * A.inverse.m13 + n.z * A.inverse.m23) * h31
  have hnz : n.z = 0 := by
    linear_combination (-n.x) * e02 + (-n.y) * e12 + (-n.z) * e22 + A.m02 * hx
      + A.m12 * hy + A.m22 * hz
      + (n.x * A.inverse.m03 + n.y * A.inverse.m13 + n.z * A.inverse.m23) * h32
  cases n
  simp_all

theorem shape_normal_ne_zero {sh : Shape} {q : Point} (hq : onSurface sh q)
    (hapex : ¬ isConeApex sh q) : Shape.normal_at sh q ≠ ⟨0, 0, 0⟩ := by
  have heps : (0:ℝ) < LOW_EPSILON := by norm_num [LOW_EPSILON]
  cases sh with
  | sphere =>
    intro h0
    have hx := congrArg Vector.x h0
    have hy := congrArg Vector.y h0
    have hz := congrArg Vector.z h0
    simp only [Shape.normal_at, Sphere.normal_at, Point.subP, Point.zero, sub_zero] at hx hy hz
    simp only [onSurface] at hq
    rw [hx, hy, hz] at hq
    norm_num at hq
  | plane =>
    intro h0
    have hy := congrArg Vector.y h0
    simp [Shape.normal_at, Plane.normal_at] at hy
  | cube =>
    intro h0
    simp only [onSurface] at hq
    simp only [Shape.normal_at, Cube.normal_at] at h0
    split_ifs at h0 with hc1 hc2
    · have hx := congrArg Vector.x h0
      simp only at hx
      rw [hc1, hx] at hq
      norm_num at hq
    · have hy := congrArg Vector.y h0
      simp only at hy
      rw [hc2, hy] at hq
      norm_num at hq
    · have hz := congrArg Vector.z h0
      simp only at hz
      rcases max_cases (max |q.x| |q.y|) |q.z| with ⟨hm, _⟩ | ⟨hm, _⟩
      · rcases max_cases |q.x| |q.y| with ⟨hm2, _⟩ | ⟨hm2, _⟩
        · exact hc1 (by rw [hm, hm2])
        · exact hc2 (by rw [hm, hm2])
      · rw [hm, hz, abs_zero] at hq
        norm_num at hq
  | cylinder minimum maximum closed =>
    intro h0
    simp only [Shape.normal_at, Cylinder.normal_at] at h0
    split_ifs at h0 with hc1 hc2
    · have hy := congrArg Vector.y h0
      simp at hy
    · have hy := congrArg Vector.y h0
      simp at hy
    · have hx := congrArg Vector.x h0
      have hz := congrArg Vector.z h0
      simp only at hx hz
      push_neg at hc1 hc2
      have hdist : q.x ^ 2 + q.z ^ 2 < 1 := by rw [hx, hz]; norm_num
      have hy1 := hc1 hdist
      have hy2 := hc2 hdist
      simp only [onSurface] at hq
      rcases hq with ⟨hside, _, _⟩ | ⟨_, _, hcap⟩
      · rw [hx, hz] at hside
        norm_num at hside
      · rcases hcap with hcap | hcap
        · rw [hcap] at hy2
          linarith
        · rw [hcap] at hy1
          linarith
  | cone minimum maximum closed =>
    intro h0
    simp only [Shape.normal_at, Cone.normal_at] at h0
    split_ifs at h0 with hc1 hc2 hc3
    · have hy := congrArg Vector.y h0
      simp at hy
    · have hy := congrArg Vector.y h0
      simp at hy
    · have hx := congrArg Vector.x h0
      have hz := congrArg Vector.z h0
      simp only at hx hz
      push_neg at hc1 hc2
      have hdist : q.x ^ 2 + q.z ^ 2 < 1 := by rw [hx, hz]; norm_num
      have hy1 := hc1 hdist
      have hy2 := hc2 hdist
      simp only [onSurface] at hq
      rcases hq with ⟨hside, _, _⟩ | ⟨_, _, hcap⟩
      · rw [hx, hz] at hside
        have hyy : q.y = 0 := by nlinarith [sq_nonneg q.y]
        exact hapex ⟨hx, hyy, hz⟩
      · rcases hcap with hcap | hcap
        · rw [hcap] at hy2
          linarith
        · rw [hcap] at hy1
          linarith
    · have hx := congrArg Vector.x h0
      have hz := congrArg Vector.z h0
      simp only at hx hz
      push_neg at hc1 hc2
      have hdist : q.x ^ 2 + q.z ^ 2 < 1 := by rw [hx, hz]; norm_num
      have hy1 := hc1 hdist
      have hy2 := hc2 hdist
      simp only [onSurface] at hq
      rcases hq with ⟨hside, _, _⟩ | ⟨_, _, hcap⟩
      · rw [hx, hz] at hside
        have hyy : q.y = 0 := by nlinarith [sq_nonneg q.y]
        exact hapex ⟨hx, hyy, hz⟩
      · rcases hcap with hcap | hcap
        · rw [hcap] at hy2
          linarith
        · rw [hcap] at hy1
          linarith

/-- C9 amended: for every object built from an invertible affine
transform, `Object::normal_at` returns a unit vector at every finite
surface point except at the cone's apex, where the kernel normal is the
zero vector and normalizing it cannot produce a unit vector (see the
counterexample). -/
theorem c9_amended_normal_at_unit (A : Matrix) (hdet : A.determinant ≠ 0)
    (h30 : A.m30 = 0) (h31 : A.m31 = 0) (h32 : A.m32 = 0) (h33 : A.m33 = 1)
    (sh : Shape) (q : Point) (hq : onSurface sh q) (hapex : ¬ isConeApex sh q) :
    ((mkShapeObject sh A).normal_at (A.mulPoint q)).magnitude = 1 := by
  have hBA := inverse_mul_of_det_ne_zero A hdet
  have hobj : (mkShapeObject sh A).to_object_space (A.mulPoint q) = q := by
    simp only [mkShapeObject, Object.set_transform, Object.to_object_space]
    rw [← mulPoint_mul_affine _ _ _ h30 h31 h32 h33, hBA, id_mulPoint]
  simp only [Object.normal_at, mkShapeObject, Object.set_transform] at hobj ⊢
  rw [hobj]
  exact normalize_magnitude_of_ne_zero
    (transpose_inverse_mulVector_ne_zero A hdet h30 h31 h32 h33 _
      (shape_normal_ne_zero hq hapex))

/-- C9 amended witness: the unit-normal theorem applied to the identity
transform, the sphere, and the surface point (0, 0, 1). -/
theorem c9_amended_normal_at_unit_witness :
    Matrix.id.determinant ≠ 0 ∧
    (Matrix.id.m30 = 0 ∧ Matrix.id.m31 = 0 ∧ Matrix.id.m32 = 0 ∧ Matrix.id.m33 = 1) ∧
    onSurface Shape.sphere ⟨0, 0, 1⟩ ∧ ¬ isConeApex Shape.sphere ⟨0, 0, 1⟩ ∧
    ((mkShapeObject Shape.sphere Matrix.id).normal_at
      (Matrix.id.mulPoint ⟨0, 0, 1⟩)).magnitude = 1 := by
  have hdet : Matrix.id.determinant ≠ 0 := by
    norm_num [Matrix.id, Matrix.determinant, Matrix.cof00, Matrix.cof01, Matrix.cof02,
      Matrix.cof03, Matrix.subdet00, Matrix.subdet01, Matrix.subdet02, Matrix.subdet03,
      Matrix3.determinant]
  exact ⟨hdet, ⟨rfl, rfl, rfl, rfl⟩, by norm_num [onSurface], by simp [isConeApex],
    c9_amended_normal_at_unit Matrix.id hdet rfl rfl rfl rfl Shape.sphere ⟨0, 0, 1⟩
      (by norm_num [onSurface]) (by simp [isConeApex])⟩

end

end RT
